import Mathlib

/-!
Verification development for the sentinel1denoised thermal-noise-removal pipeline
(s1denoise/S1_TOPS_GRD_NoiseCorrection.py and s1denoise/sentinel1calval.py).

The Python code operates on numpy float64 rasters.  Floating point values are
modelled by the type `Val` below: either NaN, a signed infinity, or an exact
rational number.  The arithmetic on `Val` follows IEEE semantics for NaN and
infinities (NaN propagates, inf + -inf = NaN, x / 0 = signed inf for x nonzero,
0 / 0 = NaN, comparisons with NaN are false); finite arithmetic is exact
rational arithmetic, which is the idealisation of float64 used throughout this
development.  Signed zero is not modelled (a finite quotient by an infinity is
the plain zero).
-/

/-- Model of a numpy float64 cell: NaN, a signed infinity (`inf true` is plus
infinity, `inf false` is minus infinity) or a finite (rational) number. -/
inductive Val where
  | nan : Val
  | inf : Bool → Val
  | num : ℚ → Val
deriving DecidableEq, Repr

namespace Val

/-- IEEE negation. -/
def neg : Val → Val
  | .nan => .nan
  | .inf s => .inf (!s)
  | .num q => .num (-q)

/-- IEEE addition: NaN propagates, opposite infinities give NaN. -/
def add : Val → Val → Val
  | .nan, _ => .nan
  | .inf _, .nan => .nan
  | .num _, .nan => .nan
  | .inf s, .inf t => if s = t then .inf s else .nan
  | .inf s, .num _ => .inf s
  | .num _, .inf t => .inf t
  | .num a, .num b => .num (a + b)

/-- IEEE subtraction, defined as addition of the negation. -/
def sub (a b : Val) : Val := add a (neg b)

/-- IEEE multiplication: NaN propagates, zero times infinity is NaN,
signs multiply. -/
def mul : Val → Val → Val
  | .nan, _ => .nan
  | .inf _, .nan => .nan
  | .num _, .nan => .nan
  | .inf s, .inf t => .inf (s = t)
  | .inf s, .num q => if q = 0 then .nan else .inf (s = decide (0 < q))
  | .num q, .inf t => if q = 0 then .nan else .inf (t = decide (0 < q))
  | .num a, .num b => .num (a * b)

/-- IEEE division: NaN propagates, inf / inf = NaN, finite / inf = 0,
nonzero / 0 = signed infinity, 0 / 0 = NaN.  The sign of a zero divisor is
taken to be positive (signed zero is not modelled). -/
def div : Val → Val → Val
  | .nan, _ => .nan
  | .inf _, .nan => .nan
  | .num _, .nan => .nan
  | .inf _, .inf _ => .nan
  | .inf s, .num q => if q = 0 then .inf s else .inf (s = decide (0 < q))
  | .num _, .inf _ => .num 0
  | .num a, .num b =>
      if b = 0 then (if a = 0 then .nan else .inf (decide (0 < a))) else .num (a / b)

/-- IEEE strict comparison as a boolean: any comparison with NaN is false. -/
def ltb : Val → Val → Bool
  | .nan, _ => false
  | .inf _, .nan => false
  | .num _, .nan => false
  | .inf s, .inf t => !s && t
  | .inf s, .num _ => !s
  | .num _, .inf t => t
  | .num a, .num b => decide (a < b)

/-- IEEE non-strict comparison as a boolean: any comparison with NaN is false. -/
def leb : Val → Val → Bool
  | .nan, _ => false
  | .inf _, .nan => false
  | .num _, .nan => false
  | .inf s, .inf t => (s == t) || (!s && t)
  | .inf s, .num _ => !s
  | .num _, .inf t => t
  | .num a, .num b => decide (a ≤ b)

/-- Test for NaN. -/
def isNaN : Val → Bool
  | .nan => true
  | _ => false

/-- Test for a finite value (np.isfinite). -/
def isNum : Val → Bool
  | .num _ => true
  | _ => false

/-- The rational carried by a finite value, zero otherwise. -/
def toQ : Val → ℚ
  | .num q => q
  | _ => 0

instance : Add Val := ⟨Val.add⟩
instance : Sub Val := ⟨Val.sub⟩
instance : Mul Val := ⟨Val.mul⟩
instance : Div Val := ⟨Val.div⟩
instance : Neg Val := ⟨Val.neg⟩

theorem add_def (a b : Val) : a + b = Val.add a b := rfl

theorem sub_def (a b : Val) : a - b = Val.sub a b := rfl

theorem mul_def (a b : Val) : a * b = Val.mul a b := rfl

theorem div_def (a b : Val) : a / b = Val.div a b := rfl

theorem num_add_num (a b : ℚ) : Val.num a + Val.num b = Val.num (a + b) := rfl

theorem num_sub_num (a b : ℚ) : Val.num a - Val.num b = Val.num (a - b) := by
  show Val.add (Val.num a) (Val.neg (Val.num b)) = Val.num (a - b)
  simp [Val.add, Val.neg, sub_eq_add_neg]

theorem num_mul_num (a b : ℚ) : Val.num a * Val.num b = Val.num (a * b) := rfl

theorem num_div_num (a b : ℚ) (h : b ≠ 0) : Val.num a / Val.num b = Val.num (a / b) := by
  show Val.div (Val.num a) (Val.num b) = Val.num (a / b)
  simp [Val.div, h]

theorem num_ltb_num (a b : ℚ) : (Val.num a).ltb (Val.num b) = decide (a < b) := rfl

theorem num_leb_num (a b : ℚ) : (Val.num a).leb (Val.num b) = decide (a ≤ b) := rfl

theorem isNaN_num (q : ℚ) : (Val.num q).isNaN = false := rfl

end Val

/-- Sum of a list of float values with the IEEE semantics of `Val.add`
(matches np.sum on a one dimensional array). -/
def vsum (xs : List Val) : Val := xs.foldl Val.add (Val.num 0)

/-- Model of np.nanmean on a one dimensional array: drop the NaN entries and
average the rest; an empty remainder gives NaN (numpy warns and returns NaN). -/
def nanmeanL (xs : List Val) : Val :=
  let ys := xs.filter (fun v => !v.isNaN)
  if ys.length = 0 then Val.nan
  else vsum ys / Val.num (ys.length)

/-- Model of np.nanmean over a full raster, the raster being indexed by an
abstract pixel index type `Fin n` (the two dimensional shape of the numpy
array is irrelevant to a global mean). -/
def nanmeanR {n : ℕ} (r : Fin n → Val) : Val :=
  nanmeanL ((List.finRange n).map r)

/-! ## Product data and the denoising orchestrator

Shallow embedding of the per polarization inputs consumed by
`thermalNoiseRemoval` and of the orchestrator itself
(S1_TOPS_GRD_NoiseCorrection.py).  Rasters are functions from an abstract
pixel index `Fin n` to `Val`; every raster operation performed by the
orchestrator is pointwise or a global mean, so the two dimensional layout is
irrelevant and a flat index is a faithful model.  The heavy reconstruction
routines (noiseVectorMap with and without LUT shift, calibrationVectorMap,
scallopingGainMap) enter the orchestrator only through the rasters they
return, so those rasters are fields of `ProductData`; the reconstruction
routines themselves are embedded separately further below. -/

/-- Observation mode of the product, IW or EW (established by the constructor,
which rejects any other product type). -/
inductive ObsMode where
  | IW : ObsMode
  | EW : ObsMode
deriving DecidableEq, Repr

/-- Number of subswaths per mode: the dictionary lookup
given in the source as a literal IW to 3, EW to 5 table. -/
def ObsMode.numSubswaths : ObsMode → ℕ
  | .IW => 3
  | .EW => 5

/-- Name prefix of the mode. -/
def ObsMode.str : ObsMode → String
  | .IW => "IW"
  | .EW => "EW"

/-- Mode dependent constant 474 (IW) or 1087 (EW) used by the pre-scaling
branch of rawNoiseEquivalentSigma0Map. -/
def ObsMode.preScaleBase : ObsMode → ℕ
  | .IW => 474
  | .EW => 1087

/-- Subswath identifier string, for example IW2. -/
def subswathID (om : ObsMode) (iSW : ℕ) : String := om.str ++ toString iSW

/-- Subswath numbers 1 .. numSubswaths, the loop range of every per-subswath
loop in the source. -/
def swathIdList (om : ObsMode) : List ℕ := (List.range om.numSubswaths).map (fun k => k + 1)

/-- Hard coded noiseCalibrationFactor table of rawNoiseEquivalentSigma0Map
(values from S1A_AUX_CAL_V20150722T120000_G20151125T104733.SAFE). -/
def noiseCalibrationFactor (sid : String) : ℚ :=
  if sid = "IW1" then 59658.3803 else
  if sid = "IW2" then 52734.43872 else
  if sid = "IW3" then 59758.6889 else
  if sid = "EW1" then 56065.87 else
  if sid = "EW2" then 56559.76 else
  if sid = "EW3" then 44956.39 else
  if sid = "EW4" then 46324.29 else
  if sid = "EW5" then 43505.68 else 0

/-- Contents of the denoising parameters npz file for one polarization, as
consumed by import_denoisingCoefficients.  Each top level field may be absent
(`none`); a present field maps a subswath identifier (and, for the
version-resolved fields, the formatted IPF version) to an optional entry,
`none` meaning the nested dictionary access raises KeyError.  The
extraScaling field carries the per-subswath curves together with the optional
SNNR axis stored beside them. -/
structure DenoParamsFile where
  noiseScaling : Option (String → ℚ → Option ℚ)
  powerBalancing : Option (String → ℚ → Option ℚ)
  extraScaling : Option ((String → Option (List ℚ)) × Option (List ℚ))
  noiseVariance : Option (String → Option ℚ)

/-- Pointwise update of a string keyed table (a Python dictionary assignment). -/
def strUpdate {α : Type} (f : String → α) (k : String) (v : α) : String → α :=
  fun s => if s = k then v else f s

/-- The extraScalingParameters dictionary built by
import_denoisingCoefficients.  It is initialised with the key SNR mapped to
the empty list; the fallback branch of the source writes the key SNNR (not
SNR), which is recorded by the separate SNNR field here. -/
structure ExtraScalingParameters where
  SNR : List ℚ
  SNNR : Option (List ℚ)
  curve : String → List ℚ

/-- The four coefficient tables returned by import_denoisingCoefficients. -/
structure Coeffs where
  noiseScaling : String → ℚ
  powerBalancing : String → ℚ
  extraScaling : ExtraScalingParameters
  noiseVariance : String → ℚ

/-- np.linspace(-30, +30, 601), the fallback SNNR axis. -/
def linspace601 : List ℚ := (List.range 601).map (fun k => -30 + (k : ℚ) * (1/10))

/-- np.ones(601), the fallback identity extra scaling curve. -/
def ones601 : List ℚ := List.replicate 601 1

/-- Lexicographic comparison of date-time tuples
(year, month, day, hour, minute, second). -/
def dateLe : List ℕ → List ℕ → Bool
  | [], _ => true
  | _ :: _, [] => false
  | a :: as, b :: bs => if a < b then true else if b < a then false else dateLe as bs

/-- Rounding of the IPF version to one decimal, modelling the formatted
dictionary key produced by the one-decimal string formatting of the source
(round half up; the actual format rounds half to even, indistinguishable for
real IPF version numbers). -/
def roundTo1 (q : ℚ) : ℚ := (⌊q * 10 + 1/2⌋ : ℤ) / 10

/-- Per polarization inputs of the orchestrator.  The rasters are the values
of the reconstruction routines of the same object; they are fields here
because the orchestrator consumes them only as whole rasters. -/
structure ProductData (n : ℕ) where
  dn : Fin n → ℕ
  calibration : Fin n → Val
  noiseVectorMapNoShift : Fin n → Val
  noiseVectorMapShift : Fin n → Val
  scallopingGain : Fin n → Val
  subswathIndex : Fin n → ℕ
  obsMode : ObsMode
  IPFversion : ℚ
  satID : String
  sensingDate : List ℕ
  denoParams : String → DenoParamsFile

/-- Effective IPF version used for the coefficient lookup: the source remaps
S1B version 2.72 sensed on or after 2017-01-16T13:42:34 to 2.8 (vendor LUT
change kept under the same version number). -/
def effectiveIPF {n : ℕ} (d : ProductData n) : ℚ :=
  if d.satID = "S1B" ∧ d.IPFversion = 2.72 ∧ dateLe [2017, 1, 16, 13, 42, 34] d.sensingDate
  then 2.8 else d.IPFversion

/-- One pass of the subswath loop of import_denoisingCoefficients: look up
the version-resolved noise scaling (fallback 1.0), power balancing (fallback
0.0), extra scaling curve (fallback: the key SNNR is set to a linspace axis
and the curve to ones - note the SNR key is untouched in that branch) and
noise variance (fallback 0.0); any failed dictionary access takes the
fallback branch with a printed warning. -/
def coeffStep (om : ObsMode) (file : DenoParamsFile) (key : ℚ) (acc : Coeffs)
    (iSW : ℕ) : Coeffs :=
  let sid := subswathID om iSW
  let ns : ℚ := match file.noiseScaling with
    | none => 1
    | some f => match f sid key with
      | some v => v
      | none => 1
  let pb : ℚ := match file.powerBalancing with
    | none => 0
    | some f => match f sid key with
      | some v => v
      | none => 0
  let extra : ExtraScalingParameters := match file.extraScaling with
    | none =>
        { SNR := acc.extraScaling.SNR
          SNNR := some linspace601
          curve := strUpdate acc.extraScaling.curve sid ones601 }
    | some (curves, snnr) => match curves sid, snnr with
      | some c, some s =>
          { SNR := s
            SNNR := acc.extraScaling.SNNR
            curve := strUpdate acc.extraScaling.curve sid c }
      | _, _ =>
          { SNR := acc.extraScaling.SNR
            SNNR := some linspace601
            curve := strUpdate acc.extraScaling.curve sid ones601 }
  let nv : ℚ := match file.noiseVariance with
    | none => 0
    | some f => match f sid with
      | some v => v
      | none => 0
  { noiseScaling := strUpdate acc.noiseScaling sid ns
    powerBalancing := strUpdate acc.powerBalancing sid pb
    extraScaling := extra
    noiseVariance := strUpdate acc.noiseVariance sid nv }

/-- Translation of import_denoisingCoefficients: fold the subswath loop over
the subswath id list, starting from empty tables (the extra scaling
dictionary starts with the key SNR mapped to the empty list). -/
def import_denoisingCoefficients {n : ℕ} (d : ProductData n) (pol : String) : Coeffs :=
  (swathIdList d.obsMode).foldl
    (coeffStep d.obsMode (d.denoParams pol) (roundTo1 (effectiveIPF d)))
    { noiseScaling := fun _ => 0
      powerBalancing := fun _ => 0
      extraScaling := { SNR := [], SNNR := none, curve := fun _ => [] }
      noiseVariance := fun _ => 0 }

/-- Python exception classes raised along the embedded paths: the explicit
ValueError checks of the source, and the errors raised inside scipy
constructors (which are also ValueError at runtime but are kept as a separate
constructor so argument-validation errors are distinguishable). -/
inductive PyError where
  | valueError : PyError
  | scipyError : PyError
deriving DecidableEq, Repr

/-- A dynamically typed Python argument as far as the isinstance(-, bool)
check of thermalNoiseRemoval can observe it: either an actual bool or
some value of any other type. -/
inductive PyObj where
  | pyBool : Bool → PyObj
  | notABool : PyObj
deriving DecidableEq, Repr

/-- The isinstance(-, bool) test. -/
def PyObj.isBool : PyObj → Bool
  | .pyBool _ => true
  | .notABool => false

/-- The boolean carried by a bool argument (unused on non bool arguments,
which fail validation first). -/
def PyObj.getBool : PyObj → Bool
  | .pyBool b => b
  | .notABool => false

/-- Numeric kernels of the pipeline that have no exact rational counterpart
and are therefore abstracted as parameters: the windowed box-mean convolution
of adaptiveNoiseScaling (scipy.ndimage.convolve with a normalised ones kernel
and constant zero padding), the decimal logarithm on positive rationals, and
the evaluation of a fitted univariate interpolation spline.  Every theorem
below is quantified over these kernels, so nothing proved depends on their
values. -/
structure Kernels (n : ℕ) where
  boxMean : (Fin n → Val) → ℕ → (Fin n → Val)
  log10 : ℚ → ℚ
  splineEval : List ℚ → List ℚ → ℚ → ℚ

/-- Lift of 10 * np.log10 to float semantics: positive finite arguments map
through the abstract logarithm, zero gives minus infinity, negative arguments
give NaN, plus infinity gives plus infinity. -/
def dB10 (log10 : ℚ → ℚ) : Val → Val
  | .nan => .nan
  | .inf s => if s then .inf true else .nan
  | .num q => if 0 < q then .num (10 * log10 q) else if q = 0 then .inf false else .nan

/-- Strict increase of a list, as scipy checks it on spline abscissae
(each element below its successor). -/
def strictlyIncreasing {α : Type} [LT α] [DecidableRel ((· < ·) : α → α → Prop)] :
    List α → Bool
  | [] => true
  | [_] => true
  | a :: b :: rest => decide (a < b) && strictlyIncreasing (b :: rest)

/-- Validity of the inputs of the InterpolatedUnivariateSpline constructor
with k = 3: scipy requires the two arrays to have the same length, strictly
increasing abscissae, and more points than the spline order. -/
def splineInputOK (xs ys : List ℚ) : Bool :=
  xs.length == ys.length && decide (3 < xs.length) && strictlyIncreasing xs

/-- Translation of adaptiveNoiseScaling: box means of signal, noise and
subswath index; local SNR in decibel; per subswath, a cubic spline fitted to
the extra scaling curve over the SNR axis is evaluated at the local SNR and
applied multiplicatively to the noise raster at pixels with finite SNR and a
window-pure subswath index.  The spline constructor raises when its input
arrays are invalid (in particular when the SNR axis is empty), which is the
error case here. -/
def adaptiveNoiseScaling {n : ℕ} (K : Kernels n) (om : ObsMode)
    (sigma0 noiseEquivalentSigma0 : Fin n → Val) (subswathIndexMap : Fin n → ℕ)
    (extraScalingParameters : ExtraScalingParameters) (windowSize : ℕ) :
    Except PyError (Fin n → Val) :=
  let meanSigma0 := K.boxMean sigma0 windowSize
  let meanNEsigma0 := K.boxMean noiseEquivalentSigma0 windowSize
  let meanSWindex := K.boxMean (fun i => Val.num (subswathIndexMap i)) windowSize
  let SNR := fun i => dB10 K.log10 ((meanSigma0 i / meanNEsigma0 i) - Val.num 1)
  if (swathIdList om).all
      (fun iSW => splineInputOK extraScalingParameters.SNR
        (extraScalingParameters.curve (subswathID om iSW))) then
    .ok ((swathIdList om).foldl (fun acc iSW => fun i =>
      if (SNR i).isNum ∧ meanSWindex i = Val.num (iSW : ℕ) then
        acc i * Val.num (K.splineEval extraScalingParameters.SNR
          (extraScalingParameters.curve (subswathID om iSW)) (SNR i).toQ)
      else acc i) noiseEquivalentSigma0)
  else .error .scipyError

/-- Translation of rawSigma0Map: squared digital numbers (uint32 arithmetic,
hence the reduction modulo 2 to the 32) divided by the squared calibration
raster. -/
def rawSigma0Map {n : ℕ} (d : ProductData n) : Fin n → Val :=
  fun i => Val.num (((d.dn i) ^ 2) % 2 ^ 32 : ℕ) / (d.calibration i * d.calibration i)

/-- The low-value test of rawNoiseEquivalentSigma0Map.  The source tests
10 * log10(nanmean) < -40; over the reals this holds exactly when the mean is
defined, non negative and below 1 / 10000 (the logarithm of zero is minus
infinity, which passes; NaN and negative means fail; an infinite mean fails). -/
def preScaleCondition : Val → Bool
  | .num q => decide (0 ≤ q ∧ q < 1/10000)
  | _ => false

/-- Translation of rawNoiseEquivalentSigma0Map: the reconstructed noise
raster (with or without LUT shift) divided by the squared calibration raster,
multiplied per subswath by the hard coded noise calibration constants when
the global mean is below the low-value threshold. -/
def rawNoiseEquivalentSigma0Map {n : ℕ} (d : ProductData n) (lutShift : Bool) : Fin n → Val :=
  let nvm := if lutShift then d.noiseVectorMapShift else d.noiseVectorMapNoShift
  let nesz := fun i => nvm i / (d.calibration i * d.calibration i)
  if preScaleCondition (nanmeanR nesz) then
    fun i =>
      let sw := d.subswathIndex i
      if 1 ≤ sw ∧ sw ≤ d.obsMode.numSubswaths then
        nesz i * Val.num ((d.obsMode.preScaleBase : ℚ) ^ 2
          * noiseCalibrationFactor (subswathID d.obsMode sw))
      else nesz i
  else nesz

/-- Translation of modifiedNoiseEquivalentSigma0Map: the raw noise equivalent
raster with LUT shift, multiplied by the scalloping gain for IPF versions in
[2.5, 2.9), then scaled and offset per subswath by the imported coefficients,
and finally passed through the adaptive scaler for cross polarization
channels when local compensation is requested. -/
def modifiedNoiseEquivalentSigma0Map {n : ℕ} (K : Kernels n) (d : ProductData n)
    (polarization : String) (localNoisePowerCompensation : Bool) :
    Except PyError (Fin n → Val) :=
  let nesz0 := rawNoiseEquivalentSigma0Map d true
  let nesz1 := if (2.5 : ℚ) ≤ d.IPFversion ∧ d.IPFversion < 2.9 then
      (fun i => nesz0 i * d.scallopingGain i) else nesz0
  let coeffs := import_denoisingCoefficients d polarization
  let nesz2 := fun i =>
    let sw := d.subswathIndex i
    if 1 ≤ sw ∧ sw ≤ d.obsMode.numSubswaths then
      nesz1 i * Val.num (coeffs.noiseScaling (subswathID d.obsMode sw))
        + Val.num (coeffs.powerBalancing (subswathID d.obsMode sw))
    else nesz1 i
  if localNoisePowerCompensation ∧ (polarization = "HV" ∨ polarization = "VH") then
    adaptiveNoiseScaling K d.obsMode (rawSigma0Map d) nesz2 d.subswathIndex
      coeffs.extraScaling 5
  else .ok nesz2

/-- The noise subtraction step of thermalNoiseRemoval: subtract the noise
equivalent raster from the raw raster and, when total power is preserved, add
back the global NaN-ignoring mean of the noise raster. -/
def noiseSubtraction {n : ℕ} (rawSigma0 noiseEquivalentSigma0 : Fin n → Val)
    (preserveTotalPower : Bool) : Fin n → Val :=
  let s := fun i => rawSigma0 i - noiseEquivalentSigma0 i
  if preserveTotalPower then fun i => s i + nanmeanR noiseEquivalentSigma0 else s

/-- The post filter of thermalNoiseRemoval: the ESA variant clips negative
pixels to zero; the NERSC variant sets pixels with zero or very low raw
sigma nought to NaN and keeps everything else (negative values included). -/
def postFilter {n : ℕ} (algorithm : String) (rawSigma0 s : Fin n → Val) : Fin n → Val :=
  if algorithm = "ESA" then
    fun i => if (s i).ltb (Val.num 0) then Val.num 0 else s i
  else
    fun i => if rawSigma0 i = Val.num 0 ∨ (rawSigma0 i).ltb (Val.num (1/10000)) then Val.nan
      else s i

/-- Translation of thermalNoiseRemoval.  The two initial ValueError checks of
the source come first; then the noise equivalent raster is the raw
reconstruction for the ESA algorithm and the modified one for NERSC; then the
subtraction step and the post filter.  The source returns either the denoised
raster alone or the pair (noise, denoised) depending on returnNESZ; the pair
is always returned here, returnNESZ being a mere projection. -/
def thermalNoiseRemoval {n : ℕ} (K : Kernels n) (d : ProductData n) (polarization : String)
    (algorithm : String) (localNoisePowerCompensation : Bool) (preserveTotalPower : PyObj) :
    Except PyError ((Fin n → Val) × (Fin n → Val)) :=
  if ¬ (algorithm = "ESA" ∨ algorithm = "NERSC") then .error .valueError
  else if ¬ preserveTotalPower.isBool then .error .valueError
  else
    let rawSigma0 := rawSigma0Map d
    let neszE : Except PyError (Fin n → Val) :=
      if algorithm = "ESA" then .ok (rawNoiseEquivalentSigma0Map d false)
      else modifiedNoiseEquivalentSigma0Map K d polarization localNoisePowerCompensation
    match neszE with
    | .error e => .error e
    | .ok nesz =>
        let s := noiseSubtraction rawSigma0 nesz preserveTotalPower.getBool
        .ok (nesz, postFilter algorithm rawSigma0 s)

/-! ## The sub-pixel LUT shift search of noiseVectorMap

The lutShift branch of noiseVectorMap runs, per noise range record, the loop

  xShiftPixel, deltaShift, ni = 0, inf, 0
  while deltaShift > 1e-2 and ni < 10:
      ni += 1
      noiseVector = zInterpolator(xBins + xShiftPixel)
      deltaShift = est_shift(referencePattern, noiseVector)
      xShiftPixel += deltaShift

The delta computed by an iteration is a function of the current accumulated
shift only (the reference pattern and the interpolator are fixed inside one
record); that function is the parameter `f` below, so one loop iteration maps
the shift x to x + f x. -/

/-- One run of the shift loop from an intermediate state: remaining permitted
iterations (10 minus the iterations already done), accumulated shift, number
of iterations done, last computed delta (`none` models the initial infinity,
which always passes the comparison of the loop guard). -/
def shiftSearchAux (f : ℚ → ℚ) : ℕ → ℚ → ℕ → Option ℚ → ℚ × ℕ × Option ℚ
  | 0, x, ni, d => (x, ni, d)
  | fuel + 1, x, ni, d =>
      let go : Bool := match d with
        | none => true
        | some q => decide (1/100 < q)
      if go then
        let delta := f x
        shiftSearchAux f fuel (x + delta) (ni + 1) (some delta)
      else (x, ni, d)

/-- The full shift search of one noise range record: start at shift zero,
iteration count zero, infinite initial delta, at most ten iterations. -/
def noiseVectorShiftSearch (f : ℚ → ℚ) : ℚ × ℕ × Option ℚ :=
  shiftSearchAux f 10 0 0 none

/-- The shift accumulated by k uncapped iterations of the loop body starting
from x. -/
def accumFrom (f : ℚ → ℚ) (x : ℚ) : ℕ → ℚ
  | 0 => x
  | k + 1 => accumFrom f x k + f (accumFrom f x k)

/-! ## Orbit interpolation (orbitAtGivenTime)

The geometry provider interpolates orbit state vectors at a query time: it
sorts the state vector times by distance to the query time (np.argsort),
keeps the first four indices, sorts them ascending, and fits one polynomial
of degree three per Cartesian component through the selected samples
(np.polynomial.hermite hermfit with deg 3 followed by hermval). -/

/-- One orbit state vector: time, position, velocity. -/
structure OrbitRecord where
  time : ℚ
  posX : ℚ
  posY : ℚ
  posZ : ℚ
  velX : ℚ
  velY : ℚ
  velZ : ℚ
deriving DecidableEq, Repr

instance : Inhabited OrbitRecord := ⟨⟨0, 0, 0, 0, 0, 0, 0⟩⟩

/-- Indices 0 .. keys.length - 1 sorted by key (np.argsort).  numpy uses an
unstable sort, so the order among equal keys is unspecified; the theorems
below only use properties invariant under tie breaking. -/
def argsortKeys (keys : List ℚ) : List ℕ :=
  List.insertionSort (fun i j => keys.getD i 0 ≤ keys.getD j 0) (List.range keys.length)

/-- Lagrange basis polynomial j over the nodes xs, evaluated at t. -/
def lagrangeBasis (xs : List ℚ) (j : ℕ) (t : ℚ) : ℚ :=
  (((List.range xs.length).filter (fun k => k ≠ j)).map
    (fun k => (t - xs.getD k 0) / (xs.getD j 0 - xs.getD k 0))).prod

/-- Evaluation at t of the Lagrange interpolation polynomial through the
nodes (xs, ys). -/
def lagrangeEval (xs ys : List ℚ) (t : ℚ) : ℚ :=
  ((List.range xs.length).map (fun j => ys.getD j 0 * lagrangeBasis xs j t)).sum

/-- Translation of cubic_hermite_interpolation: a least squares fit of degree
three in the Hermite basis (np.polynomial.hermite hermfit) evaluated at the
query point (hermval).  For the four distinct sample points selected by
orbitAtGivenTime the least squares system is square and nonsingular, and the
fitted polynomial is the unique polynomial of degree at most three through
the four points, written here in Lagrange form.  For fewer than four points
numpy computes a rank deficient least squares fit and raises no exception
(only a RankWarning, and the module suppresses warnings); only the absence of
an exception at such inputs is used by the theorems below, never the numeric
value, which this translation does not model for that case. -/
def cubic_hermite_interpolation (xs ys : List ℚ) (t : ℚ) : ℚ := lagrangeEval xs ys t

/-- The index selection of orbitAtGivenTime:
sorted(np.argsort(abs(orbitTime - t))[:4]). -/
def useIndices (times : List ℚ) (t : ℚ) : List ℕ :=
  List.insertionSort (fun i j => i ≤ j)
    ((argsortKeys (times.map (fun s => |s - t|))).take 4)

/-- Translation of orbitAtGivenTime for a single query time: no explicit
sample count check exists in the source; the only failing path is the empty
orbit list (hermfit raises TypeError on an empty abscissa array).  With a non
empty orbit the four (or fewer) nearest samples are selected and each
Cartesian component of position and velocity is interpolated by
cubic_hermite_interpolation. -/
def orbitAtGivenTime (orbit : List OrbitRecord) (t : ℚ) :
    Except PyError ((ℚ × ℚ × ℚ) × (ℚ × ℚ × ℚ)) :=
  if orbit.isEmpty then .error .valueError
  else
    let times := orbit.map OrbitRecord.time
    let idx := useIndices times t
    let tsel := idx.map (fun i => times.getD i 0)
    let comp := fun (g : OrbitRecord → ℚ) =>
      cubic_hermite_interpolation tsel (idx.map (fun i => g (orbit.getD i default))) t
    .ok ((comp OrbitRecord.posX, comp OrbitRecord.posY, comp OrbitRecord.posZ),
         (comp OrbitRecord.velX, comp OrbitRecord.velY, comp OrbitRecord.velZ))

/-! ## Sparse to dense reconstruction (calibrationVectorMap, noiseVectorMap)

Both routines share one structure: per subswath, select the records whose
line lies in the azimuth range of the subswath; per record, build a validity
mask, skip the record when no sample is valid, otherwise fit a univariate
spline to the valid samples and evaluate it on the dense pixel axis of the
subswath; then fit a bivariate degree one spline across the surviving
records and evaluate it on every pixel of the subswath.  calibrationVectorMap
masks on subswath membership and positive values; noiseVectorMap additionally
invalidates samples at pixel positions with zero gradient.  The two spline
evaluations have no exact rational counterpart and are the abstract kernel
parameters `interp1` (record samples to dense axis) and `interp2` (dense rows
across record lines to a pixel); their constructor validity checks (matching
lengths are structural here, strictly increasing abscissae and enough points)
are modelled exactly, since scipy raises on their violation. -/

/-- One swathBounds rectangle of a subswath. -/
structure SwathBoundRec where
  firstAzimuthLine : ℕ
  firstRangeSample : ℕ
  lastAzimuthLine : ℕ
  lastRangeSample : ℕ
deriving DecidableEq, Repr

/-- One sparse vector record: annotated line, pixel positions and values
(sigmaNought for calibration vectors, noiseRangeLut for noise vectors). -/
structure VectorRecord where
  line : ℕ
  pixel : List ℕ
  value : List ℚ
deriving DecidableEq, Repr

/-- Minimum of a list of naturals (Python min; the source applies it only to
non empty swath bound lists, where the default never shows). -/
def minList : List ℕ → ℕ
  | [] => 0
  | a :: as => as.foldl min a

/-- Maximum of a list of naturals (Python max). -/
def maxList : List ℕ → ℕ
  | [] => 0
  | a :: as => as.foldl max a

/-- Translation of subswathIndexMap: start from zero everywhere and stamp
each subswath rectangle with its subswath number, in ascending subswath
order (later subswaths overwrite earlier ones where rectangles overlap). -/
def swathIndexAt (numSW : ℕ) (bounds : ℕ → List SwathBoundRec) (y x : ℕ) : ℕ :=
  (List.range numSW).foldl (fun acc k =>
    if (bounds (k + 1)).any (fun b =>
        decide (b.firstAzimuthLine ≤ y ∧ y ≤ b.lastAzimuthLine ∧
          b.firstRangeSample ≤ x ∧ x ≤ b.lastRangeSample)) then k + 1 else acc) 0

/-- The dense pixel axis of a subswath:
np.arange(min(firstRangeSample), max(lastRangeSample) + 1). -/
def swathXBins (bounds : ℕ → List SwathBoundRec) (iSW : ℕ) : List ℕ :=
  let frs := minList ((bounds iSW).map SwathBoundRec.firstRangeSample)
  let lrs := maxList ((bounds iSW).map SwathBoundRec.lastRangeSample)
  List.range' frs (lrs + 1 - frs)

/-- np.gradient of a one dimensional array: one sided differences at the two
ends, central differences inside.  numpy rejects arrays of fewer than two
elements; the value returned here for those (never produced by annotated
records) is immaterial. -/
def npGradient (xs : List ℚ) : List ℚ :=
  (List.range xs.length).map (fun j =>
    if j = 0 then xs.getD 1 0 - xs.getD 0 0
    else if j = xs.length - 1 then xs.getD j 0 - xs.getD (j - 1) 0
    else (xs.getD (j + 1) 0 - xs.getD (j - 1) 0) / 2)

/-- Processing of one sparse record inside the subswath loop: the validity
mask keeps samples lying in the subswath with positive value (and, for noise
vectors, nonzero pixel gradient); a record with no valid sample is skipped
(`none`, its dense row stays NaN and is dropped later); a record whose valid
samples are too few for the cubic spline constructor (scipy needs more points
than the order three) or not strictly increasing raises; otherwise the dense
row is the 1D interpolation of the valid samples over the pixel axis (the
abscissae are integer pixel positions, so their strict increase is compared
over the naturals, which is equivalent to the float comparison scipy makes). -/
def processRecord (interp1 : List ℚ → List ℚ → ℚ → ℚ) (gradFilter : Bool)
    (swIdx : ℕ → ℕ → ℕ) (iSW : ℕ) (xBins : List ℕ) (r : VectorRecord) :
    Except PyError (Option (List ℚ)) :=
  let grads := npGradient (r.pixel.map (fun p => (p : ℚ)))
  let validIdx := (List.range r.pixel.length).filter (fun j =>
    decide (swIdx r.line (r.pixel.getD j 0) = iSW ∧ 0 < r.value.getD j 0 ∧
      (gradFilter = false ∨ grads.getD j 1 ≠ 0)))
  if validIdx.length = 0 then .ok none
  else
    let xs := validIdx.map (fun j => ((r.pixel.getD j 0 : ℕ) : ℚ))
    let zs := validIdx.map (fun j => r.value.getD j 0)
    if validIdx.length ≤ 3 ∨ strictlyIncreasing (validIdx.map (fun j => r.pixel.getD j 0)) = false then
      .error .scipyError
    else .ok (some (xBins.map (fun xb => interp1 xs zs (xb : ℚ))))

/-- The per subswath phase of the reconstruction: select records in the
azimuth range, process each record, drop the skipped ones, and require at
least two surviving records with strictly increasing lines (the bivariate
degree one spline constructor raises otherwise). -/
def subswathData (interp1 : List ℚ → List ℚ → ℚ → ℚ) (gradFilter : Bool)
    (numSW : ℕ) (bounds : ℕ → List SwathBoundRec) (records : List VectorRecord)
    (iSW : ℕ) : Except PyError (List (ℕ × List ℚ)) := do
  let swIdx := swathIndexAt numSW bounds
  let bnd := bounds iSW
  let falMin := minList (bnd.map SwathBoundRec.firstAzimuthLine)
  let lalMax := maxList (bnd.map SwathBoundRec.lastAzimuthLine)
  let xBins := swathXBins bounds iSW
  let inRange := records.filter (fun r => decide (falMin ≤ r.line ∧ r.line ≤ lalMax))
  let rows ← inRange.mapM (fun r =>
    (processRecord interp1 gradFilter swIdx iSW xBins r).map (fun o => (r.line, o)))
  let kept := rows.filterMap (fun p => p.2.map (fun row => (p.1, row)))
  if kept.length ≤ 1 ∨ strictlyIncreasing (kept.map (fun p => (p.1 : ℕ))) = false then
    .error .scipyError
  else pure kept

/-- The shared skeleton of calibrationVectorMap and of the range vector phase
of noiseVectorMap: every subswath must reconstruct successfully (the source
raises out of the whole routine at the first failing subswath), and the dense
raster maps each pixel of a subswath through the 2D interpolation of the
surviving rows of that subswath, every other pixel staying NaN (the raster is
initialised with np.nan and only subswath pixels are assigned). -/
def vectorMapCore (interp1 : List ℚ → List ℚ → ℚ → ℚ)
    (interp2 : List ℚ → List ℚ → List (List ℚ) → ℚ → ℚ → ℚ) (gradFilter : Bool)
    (numSW : ℕ) (bounds : ℕ → List SwathBoundRec) (records : List VectorRecord) :
    Except PyError (ℕ → ℕ → Val) :=
  if ∀ k ∈ List.range numSW,
      (subswathData interp1 gradFilter numSW bounds records (k + 1)).isOk = true then
    .ok (fun y x =>
      let s := swathIndexAt numSW bounds y x
      if 1 ≤ s ∧ s ≤ numSW then
        match subswathData interp1 gradFilter numSW bounds records s with
        | .ok kept =>
            Val.num (interp2 ((swathXBins bounds s).map (fun p => ((p : ℕ) : ℚ)))
              (kept.map (fun p => ((p.1 : ℕ) : ℚ))) (kept.map (fun p => p.2))
              (x : ℚ) (y : ℚ))
        | .error _ => Val.nan
      else Val.nan)
  else .error .scipyError

/-- Translation of calibrationVectorMap (validity mask: subswath membership
and positive sigmaNought). -/
def calibrationVectorMap (interp1 : List ℚ → List ℚ → ℚ → ℚ)
    (interp2 : List ℚ → List ℚ → List (List ℚ) → ℚ → ℚ → ℚ)
    (numSW : ℕ) (bounds : ℕ → List SwathBoundRec) (records : List VectorRecord) :
    Except PyError (ℕ → ℕ → Val) :=
  vectorMapCore interp1 interp2 false numSW bounds records

/-- Translation of the range vector phase of noiseVectorMap without LUT shift
(validity mask additionally drops samples at zero pixel gradient); the
subsequent azimuth vector multiplication phase of noiseVectorMap is outside
the scope of the reconstruction claims and is not modelled here. -/
def noiseVectorMapRangePhase (interp1 : List ℚ → List ℚ → ℚ → ℚ)
    (interp2 : List ℚ → List ℚ → List (List ℚ) → ℚ → ℚ → ℚ)
    (numSW : ℕ) (bounds : ℕ → List SwathBoundRec) (records : List VectorRecord) :
    Except PyError (ℕ → ℕ → Val) :=
  vectorMapCore interp1 interp2 true numSW bounds records

/-! ## Power balancing coefficients (experiment_powerBalancing)

Translation of the per block balancing computation of
experiment_powerBalancing (S1_TOPS_GRD_NoiseCorrection.py, EW products:
five subswaths, four interswath boundaries; the sentinel1calval.py variant
has the same structure with the boundary pixel taken from the swath bounds).
The per subswath linear fits (np.polyfit of the noise subtracted signal
against the pixel index) and the detected boundary pixels enter the
computation only through their coefficients and positions, which are the
arguments here. -/

/-- Cumulative sum with carry (np.cumsum). -/
def cumsumFrom (c : ℚ) : List ℚ → List ℚ
  | [] => []
  | q :: r => (c + q) :: cumsumFrom (c + q) r

/-- Evaluation of a fitted line (slope, intercept) at a pixel position. -/
def evalLine (c : ℚ × ℚ) (x : ℚ) : ℚ := c.1 * x + c.2

/-- The raw balancing power vector before the cumulative sum: entry zero
stays zero, entry li + 1 is the power discontinuity across boundary li, the
two adjacent fitted lines being evaluated at the shared boundary pixel. -/
def balancingDeltas (fits : List (ℚ × ℚ)) (bnds : List ℚ) : List ℚ :=
  0 :: (List.range 4).map (fun li =>
    evalLine (fits.getD (li + 1) (0, 0)) (bnds.getD li 0)
      - evalLine (fits.getD li (0, 0)) (bnds.getD li 0))

/-- np.cumsum of the balancing power vector. -/
def balancingCumsum (fits : List (ℚ × ℚ)) (bnds : List ℚ) : List ℚ :=
  cumsumFrom 0 (balancingDeltas fits bnds)

/-- The block noise raster after the cumulated balancing power of each
subswath has been added to its pixels. -/
def balancedBlockN0 {m : ℕ} (fits : List (ℚ × ℚ)) (bnds : List ℚ)
    (blockSWI : Fin m → ℕ) (blockN0 : Fin m → Val) : Fin m → Val :=
  fun i =>
    let s := blockSWI i
    if 1 ≤ s ∧ s ≤ 5 then blockN0 i + Val.num ((balancingCumsum fits bnds).getD (s - 1) 0)
    else blockN0 i

/-- The global bias: NaN-ignoring mean of (raw noise minus balanced noise)
over the pixels of subswath index at least two. -/
def powerBalancingBias {m : ℕ} (fits : List (ℚ × ℚ)) (bnds : List ℚ)
    (blockSWI : Fin m → ℕ) (blockRN0 blockN0 : Fin m → Val) : Val :=
  nanmeanL (((List.finRange m).filter (fun i => decide (2 ≤ blockSWI i))).map
    (fun i => blockRN0 i - balancedBlockN0 fits bnds blockSWI blockN0 i))

/-- The balancing coefficients recorded for one azimuth block: the cumulated
discontinuities with the global bias added to every entry
(balancingPower += powerBias in the source). -/
def experiment_powerBalancing_block {m : ℕ} (fits : List (ℚ × ℚ)) (bnds : List ℚ)
    (blockSWI : Fin m → ℕ) (blockRN0 blockN0 : Fin m → Val) : List Val :=
  (balancingCumsum fits bnds).map
    (fun q => Val.num q + powerBalancingBias fits bnds blockSWI blockRN0 blockN0)

/-! ## Helper lemmas on float lists of finite values -/

theorem foldl_add_num (qs : List ℚ) :
    ∀ a : ℚ, (qs.map Val.num).foldl Val.add (Val.num a) = Val.num (a + qs.sum) := by
  induction qs with
  | nil => intro a; simp
  | cons q r ih =>
      intro a
      simp only [List.map_cons, List.foldl_cons, Val.add, ih, List.sum_cons]
      ring_nf

theorem vsum_map_num (qs : List ℚ) : vsum (qs.map Val.num) = Val.num qs.sum := by
  unfold vsum
  rw [foldl_add_num]
  ring_nf

theorem nanmeanL_map_num (qs : List ℚ) (h : qs ≠ []) :
    nanmeanL (qs.map Val.num) = Val.num (qs.sum / qs.length) := by
  unfold nanmeanL
  have hf : (qs.map Val.num).filter (fun v => !v.isNaN) = qs.map Val.num := by
    apply List.filter_eq_self.2
    intro v hv
    rcases List.mem_map.1 hv with ⟨q, _, rfl⟩
    rfl
  simp only [hf, List.length_map, vsum_map_num]
  have hlen : qs.length ≠ 0 := by simpa using h
  rw [if_neg hlen]
  show Val.div (Val.num qs.sum) (Val.num (qs.length : ℚ)) = Val.num (qs.sum / qs.length)
  simp [Val.div, hlen]

/-! ## Claim theorems -/

/-- Abstract numeric kernels instantiated trivially, for concrete instances
of the theorems below (none of their values matters to any statement). -/
def kernels0 {n : ℕ} : Kernels n :=
  { boxMean := fun r _ => r, log10 := fun _ => 0, splineEval := fun _ _ _ => 0 }

/-- A denoising parameters file with every field absent. -/
def fileNone : DenoParamsFile :=
  { noiseScaling := none, powerBalancing := none, extraScaling := none, noiseVariance := none }

/-- A one pixel product used by concrete instances: zero digital number, unit
calibration and unit noise rasters, subswath one, recent IPF version. -/
def sampleProduct : ProductData 1 :=
  { dn := fun _ => 0
    calibration := fun _ => Val.num 1
    noiseVectorMapNoShift := fun _ => Val.num 1
    noiseVectorMapShift := fun _ => Val.num 1
    scallopingGain := fun _ => Val.num 1
    subswathIndex := fun _ => 1
    obsMode := .IW
    IPFversion := 3.2
    satID := "S1A"
    sensingDate := [2020, 1, 1, 0, 0, 0]
    denoParams := fun _ => fileNone }

/-- A product agreeing with `sampleProduct` on every input consumed by the
ESA algorithm branch but differing in the LUT shifted noise raster, the
scalloping gain and the IPF version. -/
def sampleProductB : ProductData 1 :=
  { dn := fun _ => 0
    calibration := fun _ => Val.num 1
    noiseVectorMapNoShift := fun _ => Val.num 1
    noiseVectorMapShift := fun _ => Val.num 7
    scallopingGain := fun _ => Val.num 3
    subswathIndex := fun _ => 1
    obsMode := .IW
    IPFversion := 2.7
    satID := "S1B"
    sensingDate := [2018, 5, 5, 0, 0, 0]
    denoParams := fun _ => fileNone }

/-- Evaluation of the ESA branch of thermalNoiseRemoval on valid arguments. -/
theorem thermalNoiseRemoval_esa_eq {n : ℕ} (K : Kernels n) (d : ProductData n)
    (pol : String) (lc b : Bool) :
    thermalNoiseRemoval K d pol "ESA" lc (.pyBool b)
      = .ok (rawNoiseEquivalentSigma0Map d false,
          postFilter "ESA" (rawSigma0Map d)
            (noiseSubtraction (rawSigma0Map d) (rawNoiseEquivalentSigma0Map d false) b)) := by
  simp [thermalNoiseRemoval, PyObj.isBool, PyObj.getBool]

/-- The adaptive scaler never raises the argument-validation ValueError of
thermalNoiseRemoval (its only failure is the spline constructor error). -/
theorem adaptive_never_valueError {n : ℕ} (K : Kernels n) (om : ObsMode)
    (s0 nv : Fin n → Val) (sw : Fin n → ℕ) (ex : ExtraScalingParameters) (w : ℕ) :
    adaptiveNoiseScaling K om s0 nv sw ex w ≠ .error .valueError := by
  unfold adaptiveNoiseScaling
  split
  · simp
  · simp

/-- The modified noise map never raises the argument-validation ValueError. -/
theorem modified_never_valueError {n : ℕ} (K : Kernels n) (d : ProductData n)
    (pol : String) (lc : Bool) :
    modifiedNoiseEquivalentSigma0Map K d pol lc ≠ .error .valueError := by
  unfold modifiedNoiseEquivalentSigma0Map
  repeat' split
  all_goals first
    | apply adaptive_never_valueError
    | simp

/-- C1: for every polarization and raw sigma nought raster, thermalNoiseRemoval
post-filters the noise subtracted result according to the algorithm variant.
With algorithm ESA every pixel whose noise subtracted value is negative is set
to zero and every other pixel keeps its noise subtracted value; with algorithm
NERSC no clipping occurs: every pixel whose raw sigma nought is zero or below
1/10000 is set to NaN, and every other pixel - negative noise subtracted
values included - keeps its noise subtracted value. -/
theorem c1_post_filter_policy {n : ℕ} (K : Kernels n) (d : ProductData n)
    (polarization : String) (lc b : Bool) :
    (∀ nesz s0, thermalNoiseRemoval K d polarization "ESA" lc (.pyBool b) = .ok (nesz, s0) →
      ∀ i, ((noiseSubtraction (rawSigma0Map d) nesz b i).ltb (Val.num 0) = true →
              s0 i = Val.num 0) ∧
           ((noiseSubtraction (rawSigma0Map d) nesz b i).ltb (Val.num 0) = false →
              s0 i = noiseSubtraction (rawSigma0Map d) nesz b i)) ∧
    (∀ nesz s0, thermalNoiseRemoval K d polarization "NERSC" lc (.pyBool b) = .ok (nesz, s0) →
      ∀ i, ((rawSigma0Map d i = Val.num 0 ∨ (rawSigma0Map d i).ltb (Val.num (1/10000)) = true) →
              s0 i = Val.nan) ∧
           (¬ (rawSigma0Map d i = Val.num 0 ∨ (rawSigma0Map d i).ltb (Val.num (1/10000)) = true) →
              s0 i = noiseSubtraction (rawSigma0Map d) nesz b i)) := by
  constructor
  · intro nesz s0 h i
    simp [thermalNoiseRemoval, PyObj.isBool, PyObj.getBool] at h
    obtain ⟨hn, hs⟩ := h
    subst hn
    constructor
    · intro hlt
      rw [← hs]
      simp [postFilter, hlt]
    · intro hlt
      rw [← hs]
      simp [postFilter, hlt]
  · intro nesz s0 h i
    simp [thermalNoiseRemoval, PyObj.isBool, PyObj.getBool] at h
    cases hm : modifiedNoiseEquivalentSigma0Map K d polarization lc with
    | error e => rw [hm] at h; cases h
    | ok m =>
        rw [hm] at h
        simp only [Except.ok.injEq, Prod.mk.injEq] at h
        obtain ⟨hn, hs⟩ := h
        subst hn
        constructor
        · intro hmask
          rw [← hs]
          simp only [postFilter, if_neg (by decide : ¬ ("NERSC" : String) = "ESA")]
          rw [if_pos hmask]
        · intro hmask
          rw [← hs]
          simp only [postFilter, if_neg (by decide : ¬ ("NERSC" : String) = "ESA")]
          rw [if_neg hmask]

/-- Witness for C1 at a concrete one pixel product: the noise subtracted
value is negative there and the ESA output pixel is zero. -/
theorem c1_witness :
    postFilter "ESA" (rawSigma0Map sampleProduct)
      (noiseSubtraction (rawSigma0Map sampleProduct)
        (rawNoiseEquivalentSigma0Map sampleProduct false) false) 0 = Val.num 0 :=
  ((c1_post_filter_policy kernels0 sampleProduct "HV" false false).1
    (rawNoiseEquivalentSigma0Map sampleProduct false)
    (postFilter "ESA" (rawSigma0Map sampleProduct)
      (noiseSubtraction (rawSigma0Map sampleProduct)
        (rawNoiseEquivalentSigma0Map sampleProduct false) false))
    (by simp [thermalNoiseRemoval, PyObj.isBool, PyObj.getBool]) 0).1
    (by norm_num [noiseSubtraction, rawSigma0Map, rawNoiseEquivalentSigma0Map, sampleProduct,
      preScaleCondition, nanmeanR, nanmeanL, vsum, Val.num_mul_num, Val.num_div_num,
      Val.num_add_num, Val.num_sub_num, Val.num_ltb_num, Val.isNaN_num, Val.add, Val.sub,
      Val.neg, Val.ltb, List.finRange, List.range, List.range.loop])

/-- C3: with algorithm ESA the noise raster subtracted by thermalNoiseRemoval
is exactly rawNoiseEquivalentSigma0Map without LUT shift; in particular the
result does not depend on the LUT shifted noise raster, the scalloping gain,
the IPF version, the sensing date or the correction coefficient store (any
two products agreeing on the digital numbers, the calibration raster, the
unshifted noise raster, the subswath index map and the observation mode give
identical ESA results, for any polarization and kernels). -/
theorem c3_esa_unmodified {n : ℕ} (K K' : Kernels n) (d d' : ProductData n)
    (pol pol' : String) (lc lc' b : Bool)
    (hdn : d'.dn = d.dn) (hcal : d'.calibration = d.calibration)
    (hnvm : d'.noiseVectorMapNoShift = d.noiseVectorMapNoShift)
    (hsw : d'.subswathIndex = d.subswathIndex) (hom : d'.obsMode = d.obsMode) :
    thermalNoiseRemoval K d pol "ESA" lc (.pyBool b)
      = .ok (rawNoiseEquivalentSigma0Map d false,
          postFilter "ESA" (rawSigma0Map d)
            (noiseSubtraction (rawSigma0Map d) (rawNoiseEquivalentSigma0Map d false) b)) ∧
    thermalNoiseRemoval K' d' pol' "ESA" lc' (.pyBool b)
      = thermalNoiseRemoval K d pol "ESA" lc (.pyBool b) := by
  have hraw : rawSigma0Map d' = rawSigma0Map d := by
    unfold rawSigma0Map
    rw [hdn, hcal]
  have hnesz : rawNoiseEquivalentSigma0Map d' false = rawNoiseEquivalentSigma0Map d false := by
    unfold rawNoiseEquivalentSigma0Map
    rw [hnvm, hcal, hsw, hom]
    simp
  refine ⟨thermalNoiseRemoval_esa_eq K d pol lc b, ?_⟩
  rw [thermalNoiseRemoval_esa_eq K d pol lc b, thermalNoiseRemoval_esa_eq K' d' pol' lc' b,
    hraw, hnesz]

/-- Witness for C3 at two concrete products differing only in the LUT shifted
noise raster, the scalloping gain, the IPF version, the platform and the
parameter store: their ESA results coincide. -/
theorem c3_witness :
    thermalNoiseRemoval kernels0 sampleProductB "HH" "ESA" true (.pyBool false)
      = thermalNoiseRemoval kernels0 sampleProduct "HV" "ESA" false (.pyBool false) :=
  (c3_esa_unmodified kernels0 kernels0 sampleProduct sampleProductB "HV" "HH" false true false
    rfl rfl rfl rfl rfl).2

/-- C10: thermalNoiseRemoval validates its arguments first: when the
algorithm is neither ESA nor NERSC, or preserveTotalPower is not a boolean,
the call returns the ValueError immediately - in particular the result does
not depend on any raster or kernel of the product (no raster is read) and the
model is pure, so no state changes; for valid arguments the argument
validation ValueError is never raised. -/
theorem c10_argument_validation {n : ℕ} (K : Kernels n) (d : ProductData n)
    (pol alg : String) (lc : Bool) (p : PyObj) :
    (¬ (alg = "ESA" ∨ alg = "NERSC") ∨ p.isBool = false →
      thermalNoiseRemoval K d pol alg lc p = .error .valueError ∧
      ∀ (K' : Kernels n) (d' : ProductData n) (pol' : String) (lc' : Bool),
        thermalNoiseRemoval K' d' pol' alg lc' p = thermalNoiseRemoval K d pol alg lc p) ∧
    ((alg = "ESA" ∨ alg = "NERSC") ∧ p.isBool = true →
      thermalNoiseRemoval K d pol alg lc p ≠ .error .valueError) := by
  constructor
  · intro h
    by_cases halg : (alg = "ESA" ∨ alg = "NERSC")
    · have hp : p.isBool = false := by
        rcases h with h | h
        · exact absurd halg h
        · exact h
      constructor
      · simp [thermalNoiseRemoval, halg, hp]
      · intro K' d' pol' lc'
        simp [thermalNoiseRemoval, halg, hp]
    · constructor
      · simp [thermalNoiseRemoval, halg]
      · intro K' d' pol' lc'
        simp [thermalNoiseRemoval, halg]
  · rintro ⟨halg, hp⟩
    unfold thermalNoiseRemoval
    rw [if_neg (not_not_intro halg), if_neg (by simp [hp])]
    rcases halg with he | hn
    · subst he
      simp
    · subst hn
      cases hm : modifiedNoiseEquivalentSigma0Map K d pol lc with
      | error e =>
          have := modified_never_valueError K d pol lc
          rw [hm] at this
          simp only [if_neg (by decide : ¬ ("NERSC" : String) = "ESA"), hm]
          intro hcontra
          apply this
          cases hcontra
          rfl
      | ok m =>
          simp [if_neg (by decide : ¬ ("NERSC" : String) = "ESA"), hm]

/-- Witness for C10: a rejected algorithm name and a non boolean
preserveTotalPower both produce the ValueError at a concrete product. -/
theorem c10_witness :
    thermalNoiseRemoval (kernels0 (n := 1)) sampleProduct "HV" "FOO" false (.pyBool true)
      = .error .valueError ∧
    thermalNoiseRemoval (kernels0 (n := 1)) sampleProduct "HV" "ESA" false PyObj.notABool
      = .error .valueError := by
  constructor
  · exact ((c10_argument_validation kernels0 sampleProduct "HV" "FOO" false (.pyBool true)).1
      (Or.inl (by decide))).1
  · exact ((c10_argument_validation kernels0 sampleProduct "HV" "ESA" false PyObj.notABool).1
      (Or.inr (by decide))).1

/-- Sum of a list after subtracting a constant from each mapped element. -/
theorem list_sum_map_sub {α : Type} (l : List α) (f : α → ℚ) (c : ℚ) :
    (l.map (fun x => f x - c)).sum = (l.map f).sum - l.length * c := by
  induction l with
  | nil => simp
  | cons a t ih =>
      simp only [List.map_cons, List.sum_cons, ih, List.length_cons]
      push_cast
      ring

/-- Shape of a successful NERSC run of thermalNoiseRemoval: the noise raster
is the modified noise map and the output is the post filtered subtraction. -/
theorem thermalNoiseRemoval_nersc_shape {n : ℕ} (K : Kernels n) (d : ProductData n)
    (pol : String) (lc b : Bool) (nesz s0 : Fin n → Val)
    (h : thermalNoiseRemoval K d pol "NERSC" lc (.pyBool b) = .ok (nesz, s0)) :
    modifiedNoiseEquivalentSigma0Map K d pol lc = .ok nesz ∧
    s0 = postFilter "NERSC" (rawSigma0Map d) (noiseSubtraction (rawSigma0Map d) nesz b) := by
  simp [thermalNoiseRemoval, PyObj.isBool, PyObj.getBool] at h
  cases hm : modifiedNoiseEquivalentSigma0Map K d pol lc with
  | error e => rw [hm] at h; cases h
  | ok m =>
      rw [hm] at h
      simp only [Except.ok.injEq, Prod.mk.injEq] at h
      obtain ⟨hn, hs⟩ := h
      subst hn
      exact ⟨rfl, hs.symm⟩

/-- Arithmetic mean of a finite family of rationals. -/
def meanQ {n : ℕ} (f : Fin n → ℚ) : ℚ := ((List.finRange n).map f).sum / n

theorem finRange_ne_nil {n : ℕ} (hn : 0 < n) : (List.finRange n) ≠ [] := by
  intro h
  have := congrArg List.length h
  simp at this
  omega

/-- The NaN-ignoring mean of an everywhere finite raster is the plain mean. -/
theorem nanmeanR_comp_num {n : ℕ} (hn : 0 < n) (f : Fin n → ℚ) :
    nanmeanR (fun j => Val.num (f j)) = Val.num (meanQ f) := by
  unfold nanmeanR meanQ
  have hmap : (List.finRange n).map (fun j => Val.num (f j))
      = ((List.finRange n).map f).map Val.num := by
    simp [List.map_map, Function.comp]
  rw [hmap, nanmeanL_map_num _ (by simp [finRange_ne_nil hn])]
  simp

/-- C2 (amended): with preserveTotalPower the subtraction step of
thermalNoiseRemoval returns, at every pixel, raw minus noise plus the
NaN-ignoring global mean of the noise raster; the final NERSC output equals
that value at every pixel the post filter leaves untouched (raw sigma nought
neither zero nor below 1/10000; the original claim fails at post filtered
pixels, see the counterexample); and for everywhere finite rasters the
spatial mean of (raw minus denoised) equals the mean noise power subtracted
minus the added mean term. -/
theorem c2_preserve_total_power {n : ℕ} :
    (∀ (raw nesz : Fin n → Val) (i : Fin n),
        noiseSubtraction raw nesz true i = (raw i - nesz i) + nanmeanR nesz) ∧
    (∀ (K : Kernels n) (d : ProductData n) (pol : String) (lc : Bool)
        (nesz s0 : Fin n → Val),
        thermalNoiseRemoval K d pol "NERSC" lc (.pyBool true) = .ok (nesz, s0) →
        ∀ i, ¬ (rawSigma0Map d i = Val.num 0 ∨
                 (rawSigma0Map d i).ltb (Val.num (1/10000)) = true) →
          s0 i = (rawSigma0Map d i - nesz i) + nanmeanR nesz) ∧
    (0 < n → ∀ (raw nesz : Fin n → ℚ),
        nanmeanR (fun i => Val.num (raw i) -
            noiseSubtraction (fun j => Val.num (raw j)) (fun j => Val.num (nesz j)) true i)
          = Val.num (meanQ nesz) - nanmeanR (fun j => Val.num (nesz j))) := by
  refine ⟨?_, ?_, ?_⟩
  · intro raw nesz i
    simp [noiseSubtraction]
  · intro K d pol lc nesz s0 h i hmask
    obtain ⟨-, hs⟩ := thermalNoiseRemoval_nersc_shape K d pol lc true nesz s0 h
    rw [hs]
    simp only [postFilter, if_neg (by decide : ¬ ("NERSC" : String) = "ESA")]
    rw [if_neg hmask]
    simp [noiseSubtraction]
  · intro hn raw nesz
    have hmean := nanmeanR_comp_num hn nesz
    have hfun : (fun i => Val.num (raw i) -
        noiseSubtraction (fun j => Val.num (raw j)) (fun j => Val.num (nesz j)) true i)
        = fun i => Val.num (nesz i - meanQ nesz) := by
      funext i
      simp only [noiseSubtraction, hmean, if_true]
      simp only [Val.num_sub_num, Val.num_add_num]
      ring_nf
    rw [hfun, nanmeanR_comp_num hn, hmean, Val.num_sub_num]
    congr 1
    unfold meanQ
    rw [list_sum_map_sub]
    have hn0 : (n : ℚ) ≠ 0 := by exact_mod_cast Nat.pos_iff_ne_zero.1 hn
    field_simp

/-- Counterexample to C2 as stated: at a pixel with zero raw sigma nought the
NERSC output of thermalNoiseRemoval with preserveTotalPower is NaN, not raw
minus noise plus the mean noise (which is finite there). -/
theorem c2_counterexample :
    ((thermalNoiseRemoval kernels0 sampleProduct "HV" "NERSC" false (.pyBool true)).toOption.map
        (fun p => p.2 0)) = some Val.nan ∧
    ((thermalNoiseRemoval kernels0 sampleProduct "HV" "NERSC" false (.pyBool true)).toOption.map
        (fun p => (rawSigma0Map sampleProduct 0 - p.1 0) + nanmeanR p.1)) = some (Val.num 0) := by
  norm_num [thermalNoiseRemoval, modifiedNoiseEquivalentSigma0Map, rawNoiseEquivalentSigma0Map,
    rawSigma0Map, import_denoisingCoefficients, coeffStep, adaptiveNoiseScaling, noiseSubtraction,
    postFilter, preScaleCondition, nanmeanR, nanmeanL, vsum, sampleProduct, fileNone,
    kernels0, swathIdList, subswathID, ObsMode.str, ObsMode.numSubswaths, strUpdate,
    effectiveIPF, roundTo1, PyObj.isBool, PyObj.getBool, Except.toOption,
    Val.num_mul_num, Val.num_div_num, Val.num_add_num, Val.num_sub_num, Val.num_ltb_num,
    Val.isNaN_num, Val.add, Val.sub, Val.neg, Val.ltb,
    List.finRange, List.range, List.range.loop]
  all_goals rw [if_neg (by decide : ¬ ("NERSC" : String) = "ESA")]

/-- Witness for C2 at a one pixel product with finite rasters. -/
theorem c2_witness :
    nanmeanR (fun i : Fin 1 => Val.num 5 -
        noiseSubtraction (fun _ : Fin 1 => Val.num 5) (fun _ : Fin 1 => Val.num 2) true i)
      = Val.num (meanQ (fun _ : Fin 1 => (2 : ℚ))) - nanmeanR (fun _ : Fin 1 => Val.num 2) :=
  (c2_preserve_total_power (n := 1)).2.2 (by decide) (fun _ => 5) (fun _ => 2)

/-- C4 (amended): without preserveTotalPower the subtraction step is
antitone in the noise raster: raising the noise raster pointwise never
raises any pixel of the noise subtracted result (in float semantics: the
result from the larger noise raster is never strictly greater).  With
preserveTotalPower the statement fails, see the counterexample. -/
theorem c4_monotonic_subtraction {n : ℕ} (raw N1 N2 : Fin n → Val)
    (h : ∀ i, (N1 i).leb (N2 i) = true) :
    ∀ i, (noiseSubtraction raw N1 false i).ltb (noiseSubtraction raw N2 false i) = false := by
  intro i
  have hi := h i
  simp only [noiseSubtraction, Bool.false_eq_true, if_false, Val.sub_def, Val.sub]
  revert hi
  generalize raw i = r
  generalize N1 i = v1
  generalize N2 i = v2
  intro hi
  rcases r with _ | s | a <;> rcases v1 with _ | t1 | b1 <;> rcases v2 with _ | t2 | b2 <;>
    (try cases s) <;> (try cases t1) <;> (try cases t2) <;>
    simp_all [Val.leb, Val.add, Val.neg, Val.ltb]
  all_goals linarith

/-- Raster with two pixels used by the counterexample to C4. -/
def c4raw : Fin 2 → Val := fun _ => Val.num 5

/-- Lower noise raster of the counterexample to C4. -/
def c4N1 : Fin 2 → Val := fun _ => Val.num 0

/-- Higher noise raster of the counterexample to C4. -/
def c4N2 : Fin 2 → Val := fun i => if i = 0 then Val.num 0 else Val.num 2

/-- Counterexample to C4 as stated: with preserveTotalPower the added global
mean differs between the two noise rasters, and a pixel of the result
strictly increases although the noise raster increased pointwise. -/
theorem c4_counterexample :
    ((c4N1 0).leb (c4N2 0) = true ∧ (c4N1 1).leb (c4N2 1) = true) ∧
    (noiseSubtraction c4raw c4N1 true 0).ltb (noiseSubtraction c4raw c4N2 true 0) = true := by
  norm_num [noiseSubtraction, nanmeanR, nanmeanL, vsum, c4raw, c4N1, c4N2,
    Val.num_add_num, Val.num_sub_num, Val.num_ltb_num, Val.num_leb_num, Val.num_div_num,
    Val.isNaN_num, Val.add, Val.sub, Val.neg, Val.ltb, Val.leb,
    List.finRange, List.range, List.range.loop]

/-- Witness for C4 at a concrete one pixel instance. -/
theorem c4_witness :
    (noiseSubtraction (fun _ : Fin 1 => Val.num 3) (fun _ => Val.num 1) false 0).ltb
      (noiseSubtraction (fun _ : Fin 1 => Val.num 3) (fun _ => Val.num 2) false 0) = false :=
  c4_monotonic_subtraction (fun _ => Val.num 3) (fun _ => Val.num 1) (fun _ => Val.num 2)
    (fun _ => by norm_num [Val.num_leb_num]) 0


/-- Shifting the start of the accumulation by one loop iteration. -/
theorem accumFrom_shift (f : ℚ → ℚ) (x : ℚ) :
    ∀ k, accumFrom f (x + f x) k = accumFrom f x (k + 1) := by
  intro k
  induction k with
  | zero => rfl
  | succ k ih => simp only [accumFrom, ih]

/-- One unfolding of the shift loop from a computed delta state. -/
theorem shiftSearchAux_succ_some (f : ℚ → ℚ) (fuel : ℕ) (x : ℚ) (m : ℕ) (δ : ℚ) :
    shiftSearchAux f (fuel + 1) x m (some δ)
      = if 1/100 < δ then shiftSearchAux f fuel (x + f x) (m + 1) (some (f x))
        else (x, m, some δ) := by
  by_cases h : 1/100 < δ <;> simp [shiftSearchAux, h]

/-- Full characterisation of the shift loop from a computed delta state:
it performs some k more iterations with k at most the remaining fuel,
accumulates the deltas, stops early exactly at the tolerance, and continues
only on deltas above the tolerance. -/
theorem shiftSearchAux_some_spec (f : ℚ → ℚ) :
    ∀ (fuel : ℕ) (x : ℚ) (m : ℕ) (δ : ℚ), 1/100 < δ →
    ∃ k, k ≤ fuel ∧
      shiftSearchAux f fuel x m (some δ)
        = (accumFrom f x k, m + k,
            some (if k = 0 then δ else f (accumFrom f x (k - 1)))) ∧
      (k = 0 → fuel = 0) ∧
      (k < fuel → f (accumFrom f x (k - 1)) ≤ 1/100) ∧
      (∀ j, j + 1 < k → 1/100 < f (accumFrom f x j)) := by
  intro fuel
  induction fuel with
  | zero =>
      intro x m δ hδ
      refine ⟨0, le_refl 0, ?_, fun _ => rfl, by omega, by omega⟩
      simp [shiftSearchAux, accumFrom]
  | succ fuel ih =>
      intro x m δ hδ
      have hstep : shiftSearchAux f (fuel + 1) x m (some δ)
          = shiftSearchAux f fuel (x + f x) (m + 1) (some (f x)) := by
        rw [shiftSearchAux_succ_some, if_pos hδ]
      by_cases hd : 1/100 < f x
      · obtain ⟨k, hk, heq, hk0, htol, hcont⟩ := ih (x + f x) (m + 1) (f x) hd
        cases k with
        | zero =>
            have hfuel : fuel = 0 := hk0 rfl
            subst hfuel
            refine ⟨1, by omega, ?_, by omega, by omega, by omega⟩
            rw [hstep, heq]
            simp [accumFrom]
        | succ k' =>
            simp only [Nat.add_sub_cancel] at heq htol
            refine ⟨k' + 2, by omega, ?_, by omega, ?_, ?_⟩
            · rw [hstep, heq, accumFrom_shift f x (k' + 1), accumFrom_shift f x k']
              have hm : m + 1 + (k' + 1) = m + (k' + 2) := by omega
              rw [hm]
              simp [Nat.succ_ne_zero]
            · intro hlt
              have h2 : k' + 1 < fuel := by omega
              have := htol h2
              rwa [accumFrom_shift f x k'] at this
            · intro j hj
              cases j with
              | zero => simpa [accumFrom] using hd
              | succ j' =>
                  have hj2 : j' + 1 < k' + 1 := by omega
                  have := hcont j' hj2
                  rwa [accumFrom_shift f x j'] at this
      · have hstop : shiftSearchAux f fuel (x + f x) (m + 1) (some (f x))
            = (x + f x, m + 1, some (f x)) := by
          cases fuel with
          | zero => rfl
          | succ fuel' => rw [shiftSearchAux_succ_some, if_neg hd]
        refine ⟨1, by omega, ?_, by omega, ?_, by omega⟩
        · rw [hstep, hstop]
          simp [accumFrom]
        · intro _
          simpa [accumFrom] using le_of_not_lt hd

/-- C5: for every per record delta function, the sub-pixel shift search of
noiseVectorMap terminates after some k iterations with 1 <= k <= 10, returns
the accumulated (best so far) shift together with the iteration count and the
last delta - never an error; it stops before the cap only when the delta of
the final iteration is at most 0.01 pixel, and every non final iteration had
a delta above 0.01 (the loop stops as soon as the tolerance is met). -/
theorem c5_lut_shift_loop (f : ℚ → ℚ) :
    ∃ k, 1 ≤ k ∧ k ≤ 10 ∧
      noiseVectorShiftSearch f = (accumFrom f 0 k, k, some (f (accumFrom f 0 (k - 1)))) ∧
      (k < 10 → f (accumFrom f 0 (k - 1)) ≤ 1/100) ∧
      (∀ j, j + 1 < k → 1/100 < f (accumFrom f 0 j)) := by
  have hstep : noiseVectorShiftSearch f = shiftSearchAux f 9 (0 + f 0) 1 (some (f 0)) := by
    show shiftSearchAux f 10 0 0 none = _
    simp [shiftSearchAux]
  by_cases hd : 1/100 < f 0
  · obtain ⟨k, hk, heq, hk0, htol, hcont⟩ := shiftSearchAux_some_spec f 9 (0 + f 0) 1 (f 0) hd
    cases k with
    | zero => omega
    | succ k' =>
        simp only [Nat.add_sub_cancel] at heq htol
        refine ⟨k' + 2, by omega, by omega, ?_, ?_, ?_⟩
        · rw [hstep, heq, accumFrom_shift f 0 (k' + 1), accumFrom_shift f 0 k']
          simp [Nat.succ_ne_zero]
          omega
        · intro hlt
          have h2 : k' + 1 < 9 := by omega
          have := htol h2
          rwa [accumFrom_shift f 0 k'] at this
        · intro j hj
          cases j with
          | zero => simpa [accumFrom] using hd
          | succ j' =>
              have hj2 : j' + 1 < k' + 1 := by omega
              have := hcont j' hj2
              rwa [accumFrom_shift f 0 j'] at this
  · have hstop : shiftSearchAux f 9 (0 + f 0) 1 (some (f 0)) = (0 + f 0, 1, some (f 0)) := by
      rw [shiftSearchAux_succ_some, if_neg hd]
    refine ⟨1, le_refl 1, by omega, ?_, ?_, by omega⟩
    · rw [hstep, hstop]
      simp [accumFrom]
    · intro _
      simpa [accumFrom] using le_of_not_lt hd

/-- Witness for C5 at the constant delta function one (the loop then runs
to the iteration cap and still returns the accumulated shift). -/
theorem c5_witness :
    ∃ k, 1 ≤ k ∧ k ≤ 10 ∧
      noiseVectorShiftSearch (fun _ => (1 : ℚ))
        = (accumFrom (fun _ => (1 : ℚ)) 0 k, k, some 1) ∧
      (k < 10 → (1 : ℚ) ≤ 1/100) ∧
      (∀ j, j + 1 < k → (1 : ℚ)/100 < 1) :=
  c5_lut_shift_loop (fun _ => 1)


/-- getD through a map at an in-range index. -/
theorem getD_map_lt {α β : Type} (f : α → β) (l : List α) (i : ℕ) (hi : i < l.length)
    (d : β) (d' : α) : (l.map f).getD i d = f (l.getD i d') := by
  rw [List.getD_eq_getElem _ _ (by simpa using hi), List.getD_eq_getElem _ _ hi]
  simp

/-- argsort returns a permutation of the index range. -/
theorem argsortKeys_perm (keys : List ℚ) :
    (argsortKeys keys).Perm (List.range keys.length) :=
  List.perm_insertionSort _ _

/-- argsort is sorted by key. -/
theorem argsortKeys_sorted (keys : List ℚ) :
    List.Sorted (fun i j => keys.getD i 0 ≤ keys.getD j 0) (argsortKeys keys) := by
  haveI : IsTotal ℕ (fun i j => keys.getD i 0 ≤ keys.getD j 0) :=
    ⟨fun a b => le_total (keys.getD a 0) (keys.getD b 0)⟩
  haveI : IsTrans ℕ (fun i j => keys.getD i 0 ≤ keys.getD j 0) :=
    ⟨fun a b c hab hbc => le_trans hab hbc⟩
  exact List.sorted_insertionSort _ _

/-- Membership in the selected indices is membership in the first four
indices of the argsort (the final ascending re-sort permutes them only). -/
theorem useIndices_mem_iff (times : List ℚ) (t : ℚ) (i : ℕ) :
    i ∈ useIndices times t ↔ i ∈ (argsortKeys (times.map (fun s => |s - t|))).take 4 := by
  unfold useIndices
  constructor
  · intro h
    exact (List.perm_insertionSort _ _).mem_iff.1 h
  · intro h
    exact (List.perm_insertionSort _ _).mem_iff.2 h

/-- With at least four samples exactly four indices are selected. -/
theorem useIndices_length (times : List ℚ) (t : ℚ) (h4 : 4 ≤ times.length) :
    (useIndices times t).length = 4 := by
  unfold useIndices
  rw [(List.perm_insertionSort _ _).length_eq, List.length_take,
    (argsortKeys_perm _).length_eq, List.length_range, List.length_map]
  omega

/-- Selected indices are valid sample indices. -/
theorem useIndices_lt (times : List ℚ) (t : ℚ) (i : ℕ) (h : i ∈ useIndices times t) :
    i < times.length := by
  rw [useIndices_mem_iff] at h
  have h2 : i ∈ argsortKeys (times.map (fun s => |s - t|)) := List.mem_of_mem_take h
  have h3 : i ∈ List.range (times.map (fun s => |s - t|)).length :=
    (argsortKeys_perm _).mem_iff.1 h2
  simpa using h3

/-- Every selected sample is at least as close to the query time as every
unselected one (the four nearest property, independent of tie breaking). -/
theorem useIndices_nearest (times : List ℚ) (t : ℚ) (i j : ℕ)
    (hi : i ∈ useIndices times t) (hj : j < times.length) (hjn : j ∉ useIndices times t) :
    |times.getD i 0 - t| ≤ |times.getD j 0 - t| := by
  set keys := times.map (fun s => |s - t|) with hkeys
  have hsorted := argsortKeys_sorted keys
  have hsplit : argsortKeys keys = (argsortKeys keys).take 4 ++ (argsortKeys keys).drop 4 :=
    (List.take_append_drop 4 _).symm
  rw [hsplit] at hsorted
  rw [List.Sorted, List.pairwise_append] at hsorted
  obtain ⟨-, -, hrel⟩ := hsorted
  have hi2 : i ∈ (argsortKeys keys).take 4 := (useIndices_mem_iff times t i).1 hi
  have hj2 : j ∈ argsortKeys keys := by
    apply (argsortKeys_perm keys).mem_iff.2
    simpa [hkeys] using hj
  have hj3 : j ∈ (argsortKeys keys).drop 4 := by
    rw [hsplit] at hj2
    rcases List.mem_append.1 hj2 with h | h
    · exact absurd ((useIndices_mem_iff times t j).2 h) hjn
    · exact h
  have hle := hrel i hi2 j hj3
  have hik : keys.getD i 0 = |times.getD i 0 - t| :=
    getD_map_lt _ _ _ (useIndices_lt times t i hi) _ 0
  have hjk : keys.getD j 0 = |times.getD j 0 - t| :=
    getD_map_lt _ _ _ hj _ 0
  rwa [hik, hjk] at hle

/-- C6 (amended): with at least four orbit state vectors, orbitAtGivenTime
succeeds, selects exactly four valid sample indices that are nearest in time
to the query (every selected distance is at most every unselected distance),
and interpolates each Cartesian position and velocity component by the degree
three polynomial fit through the selected samples.  The original claim also
asserts failure with an InsufficientOrbitData error for fewer than four
samples; the code contains no such check and numpy only warns, see the
counterexample. -/
theorem c6_orbit_interpolation (orbit : List OrbitRecord) (t : ℚ)
    (h4 : 4 ≤ orbit.length) :
    (orbitAtGivenTime orbit t).isOk = true ∧
    (useIndices (orbit.map OrbitRecord.time) t).length = 4 ∧
    (∀ i ∈ useIndices (orbit.map OrbitRecord.time) t, i < orbit.length) ∧
    (∀ i ∈ useIndices (orbit.map OrbitRecord.time) t,
      ∀ j, j < orbit.length → j ∉ useIndices (orbit.map OrbitRecord.time) t →
        |(orbit.map OrbitRecord.time).getD i 0 - t|
          ≤ |(orbit.map OrbitRecord.time).getD j 0 - t|) ∧
    orbitAtGivenTime orbit t = .ok
      (((cubic_hermite_interpolation
          ((useIndices (orbit.map OrbitRecord.time) t).map
            (fun i => (orbit.map OrbitRecord.time).getD i 0))
          ((useIndices (orbit.map OrbitRecord.time) t).map
            (fun i => (orbit.getD i default).posX)) t,
        cubic_hermite_interpolation
          ((useIndices (orbit.map OrbitRecord.time) t).map
            (fun i => (orbit.map OrbitRecord.time).getD i 0))
          ((useIndices (orbit.map OrbitRecord.time) t).map
            (fun i => (orbit.getD i default).posY)) t,
        cubic_hermite_interpolation
          ((useIndices (orbit.map OrbitRecord.time) t).map
            (fun i => (orbit.map OrbitRecord.time).getD i 0))
          ((useIndices (orbit.map OrbitRecord.time) t).map
            (fun i => (orbit.getD i default).posZ)) t),
       (cubic_hermite_interpolation
          ((useIndices (orbit.map OrbitRecord.time) t).map
            (fun i => (orbit.map OrbitRecord.time).getD i 0))
          ((useIndices (orbit.map OrbitRecord.time) t).map
            (fun i => (orbit.getD i default).velX)) t,
        cubic_hermite_interpolation
          ((useIndices (orbit.map OrbitRecord.time) t).map
            (fun i => (orbit.map OrbitRecord.time).getD i 0))
          ((useIndices (orbit.map OrbitRecord.time) t).map
            (fun i => (orbit.getD i default).velY)) t,
        cubic_hermite_interpolation
          ((useIndices (orbit.map OrbitRecord.time) t).map
            (fun i => (orbit.map OrbitRecord.time).getD i 0))
          ((useIndices (orbit.map OrbitRecord.time) t).map
            (fun i => (orbit.getD i default).velZ)) t))) := by
  have hne : orbit.isEmpty = false := by
    cases orbit with
    | nil => simp at h4
    | cons a l => rfl
  have hmaplen : 4 ≤ (orbit.map OrbitRecord.time).length := by simpa using h4
  refine ⟨?_, ?_, ?_, ?_, ?_⟩
  · simp only [orbitAtGivenTime, hne, Bool.false_eq_true, if_false]
    rfl
  · exact useIndices_length _ _ hmaplen
  · intro i hi
    have := useIndices_lt _ _ _ hi
    simpa using this
  · intro i hi j hj hjn
    exact useIndices_nearest _ _ _ _ hi (by simpa using hj) hjn
  · simp [orbitAtGivenTime, hne]

/-- A three sample orbit used by the counterexample to C6. -/
def orbit3 : List OrbitRecord :=
  [⟨0, 1, 2, 3, 4, 5, 6⟩, ⟨10, 1, 2, 3, 4, 5, 6⟩, ⟨20, 1, 2, 3, 4, 5, 6⟩]

/-- Counterexample to C6 as stated: a three sample orbit list is below the
claimed minimum, yet the interpolation returns a result and raises nothing
(numpy hermfit performs a rank deficient least squares fit and only issues a
RankWarning, which the module suppresses). -/
theorem c6_counterexample :
    orbit3.length < 4 ∧ (orbitAtGivenTime orbit3 0).isOk = true := by
  constructor
  · decide
  · simp only [orbitAtGivenTime, orbit3, List.isEmpty_cons, Bool.false_eq_true, if_false]
    rfl

/-- A five sample orbit used by the witness for C6. -/
def orbit5 : List OrbitRecord :=
  [⟨0, 1, 2, 3, 4, 5, 6⟩, ⟨10, 1, 2, 3, 4, 5, 6⟩, ⟨20, 1, 2, 3, 4, 5, 6⟩,
   ⟨30, 1, 2, 3, 4, 5, 6⟩, ⟨40, 1, 2, 3, 4, 5, 6⟩]

/-- Witness for C6 at a concrete five sample orbit. -/
theorem c6_witness :
    (orbitAtGivenTime orbit5 0).isOk = true ∧
    (useIndices (orbit5.map OrbitRecord.time) 0).length = 4 := by
  have h := c6_orbit_interpolation orbit5 0 (by decide)
  exact ⟨h.1, h.2.1⟩

/-- Skipping a record whose processing yields `.ok (r.line, none)` leaves the
filterMapped row list of the surrounding mapM unchanged. -/
theorem mapM_filterMap_skip (g : VectorRecord → Except PyError (ℕ × Option (List ℚ)))
    (bad : VectorRecord) (hbad : g bad = .ok (bad.line, none)) :
    ∀ l₁ l₂ : List VectorRecord,
      ((l₁ ++ bad :: l₂).mapM g).map
          (fun rows => rows.filterMap (fun p => p.2.map (fun row => (p.1, row))))
        = ((l₁ ++ l₂).mapM g).map
            (fun rows => rows.filterMap (fun p => p.2.map (fun row => (p.1, row)))) := by
  intro l₁
  induction l₁ with
  | nil =>
      intro l₂
      simp only [List.nil_append, List.mapM_cons, hbad]
      cases hm : l₂.mapM g with
      | error e => simp [hm, Except.map, Except.bind, bind]
      | ok rest => simp [hm, Except.map, Except.bind, bind, pure, Except.pure, List.filterMap_cons]
  | cons a l₁ ih =>
      intro l₂
      simp only [List.cons_append, List.mapM_cons]
      cases hg : g a with
      | error e => simp [hg, Except.map, Except.bind, bind]
      | ok r =>
          have h := ih l₂
          cases hm1 : (l₁ ++ bad :: l₂).mapM g with
          | error e =>
              cases hm2 : (l₁ ++ l₂).mapM g with
              | error e' =>
                  rw [hm1, hm2] at h
                  simp only [Except.map] at h
                  cases h
                  simp [hg, hm1, hm2, Except.map, Except.bind, bind]
              | ok rest2 =>
                  rw [hm1, hm2] at h
                  simp [Except.map] at h
          | ok rest1 =>
              cases hm2 : (l₁ ++ l₂).mapM g with
              | error e' =>
                  rw [hm1, hm2] at h
                  simp [Except.map] at h
              | ok rest2 =>
                  rw [hm1, hm2] at h
                  simp only [Except.map, Except.ok.injEq] at h
                  simp [hg, hm1, hm2, Except.map, Except.bind, bind, pure, Except.pure, List.filterMap_cons, h]

/-- Two Except computations with the same image under a map feed a
continuation reading only that image identically. -/
theorem except_bind_congr_map {ε α β γ : Type} (A B : Except ε α) (f : α → β)
    (h : A.map f = B.map f) (k : β → Except ε γ) :
    (A >>= fun a => k (f a)) = (B >>= fun a => k (f a)) := by
  cases A with
  | error e =>
      cases B with
      | error e' =>
          simp only [Except.map, Except.error.injEq] at h
          rw [h]
      | ok b => simp [Except.map] at h
  | ok a =>
      cases B with
      | error e' => simp [Except.map] at h
      | ok b =>
          simp only [Except.map, Except.ok.injEq] at h
          show k (f a) = k (f b)
          rw [h]

/-- A record with no valid sample (processRecord returns `.ok none`) is
invisible to subswathData: removing it from the record list changes nothing,
whatever the outcome (success or raised error) for the remaining records. -/
theorem subswathData_skip (interp1 : List ℚ → List ℚ → ℚ → ℚ) (gradFilter : Bool)
    (numSW : ℕ) (bounds : ℕ → List SwathBoundRec) (l₁ l₂ : List VectorRecord)
    (bad : VectorRecord) (iSW : ℕ)
    (hbad : processRecord interp1 gradFilter (swathIndexAt numSW bounds) iSW
      (swathXBins bounds iSW) bad = .ok none) :
    subswathData interp1 gradFilter numSW bounds (l₁ ++ bad :: l₂) iSW
      = subswathData interp1 gradFilter numSW bounds (l₁ ++ l₂) iSW := by
  unfold subswathData
  dsimp only
  rw [List.filter_append, List.filter_append, List.filter_cons]
  by_cases hp : (decide (minList (List.map SwathBoundRec.firstAzimuthLine (bounds iSW)) ≤ bad.line
      ∧ bad.line ≤ maxList (List.map SwathBoundRec.lastAzimuthLine (bounds iSW)))) = true
  · rw [if_pos hp]
    exact except_bind_congr_map _ _
      (fun (rows : List (ℕ × Option (List ℚ))) =>
        rows.filterMap (fun p => p.2.map (fun row => (p.1, row))))
      (mapM_filterMap_skip
        (fun r => Except.map (fun o => (r.line, o))
          (processRecord interp1 gradFilter (swathIndexAt numSW bounds) iSW
            (swathXBins bounds iSW) r)) bad (by simp [hbad, Except.map]) _ _)
      (fun (kept : List (ℕ × List ℚ)) => if kept.length ≤ 1 ∨
          strictlyIncreasing (kept.map (fun p => (p.1 : ℕ))) = false then
          Except.error PyError.scipyError
        else pure kept)
  · rw [if_neg hp]

/-- C7: in the sparse to dense reconstruction, a record left with zero usable
samples after validity filtering is skipped without consequence — the raster
returned by the reconstruction is the one computed from the other records,
and every pixel outside the subswath rectangles stays NaN.  The claim as
frozen further asserts the condition is never fatal, which is refuted
separately: when the skipped records leave a subswath with at most one
surviving row the bivariate spline constructor raises out of the whole
routine (see the counterexample). -/
theorem c7_reconstruction_skip (interp1 : List ℚ → List ℚ → ℚ → ℚ)
    (interp2 : List ℚ → List ℚ → List (List ℚ) → ℚ → ℚ → ℚ) (gradFilter : Bool)
    (numSW : ℕ) (bounds : ℕ → List SwathBoundRec) (l₁ l₂ : List VectorRecord)
    (bad : VectorRecord)
    (hbad : ∀ iSW, 1 ≤ iSW → iSW ≤ numSW →
      processRecord interp1 gradFilter (swathIndexAt numSW bounds) iSW
        (swathXBins bounds iSW) bad = .ok none) :
    vectorMapCore interp1 interp2 gradFilter numSW bounds (l₁ ++ bad :: l₂)
      = vectorMapCore interp1 interp2 gradFilter numSW bounds (l₁ ++ l₂) ∧
    (∀ R, vectorMapCore interp1 interp2 gradFilter numSW bounds (l₁ ++ l₂) = .ok R →
      ∀ y x, (swathIndexAt numSW bounds y x = 0 ∨ numSW < swathIndexAt numSW bounds y x) →
        R y x = Val.nan) := by
  have hsub : ∀ s, 1 ≤ s → s ≤ numSW →
      subswathData interp1 gradFilter numSW bounds (l₁ ++ bad :: l₂) s
        = subswathData interp1 gradFilter numSW bounds (l₁ ++ l₂) s :=
    fun s h1 h2 => subswathData_skip interp1 gradFilter numSW bounds l₁ l₂ bad s (hbad s h1 h2)
  constructor
  · unfold vectorMapCore
    have hcond : (∀ k ∈ List.range numSW,
        (subswathData interp1 gradFilter numSW bounds (l₁ ++ bad :: l₂) (k + 1)).isOk = true)
        ↔ (∀ k ∈ List.range numSW,
        (subswathData interp1 gradFilter numSW bounds (l₁ ++ l₂) (k + 1)).isOk = true) := by
      constructor
      · intro h k hk
        rw [← hsub (k + 1) (by omega) (by have := List.mem_range.1 hk; omega)]
        exact h k hk
      · intro h k hk
        rw [hsub (k + 1) (by omega) (by have := List.mem_range.1 hk; omega)]
        exact h k hk
    refine if_congr hcond ?_ rfl
    congr 1
    funext y x
    dsimp only
    by_cases hs : 1 ≤ swathIndexAt numSW bounds y x ∧ swathIndexAt numSW bounds y x ≤ numSW
    · rw [if_pos hs, if_pos hs, hsub _ hs.1 hs.2]
    · rw [if_neg hs, if_neg hs]
  · intro R hR y x hout
    unfold vectorMapCore at hR
    by_cases hc : ∀ k ∈ List.range numSW,
        (subswathData interp1 gradFilter numSW bounds (l₁ ++ l₂) (k + 1)).isOk = true
    · rw [if_pos hc] at hR
      simp only [Except.ok.injEq] at hR
      subst hR
      have hs : ¬ (1 ≤ swathIndexAt numSW bounds y x
          ∧ swathIndexAt numSW bounds y x ≤ numSW) := by omega
      simp only [hs, if_false]
    · rw [if_neg hc] at hR
      cases hR

/-- Degenerate 1D interpolation kernel for the C7 concrete instances. -/
def c7interp1 : List ℚ → List ℚ → ℚ → ℚ := fun _ _ _ => 0

/-- Degenerate 2D interpolation kernel for the C7 concrete instances. -/
def c7interp2 : List ℚ → List ℚ → List (List ℚ) → ℚ → ℚ → ℚ := fun _ _ _ _ _ => 0

/-- One subswath covering lines 0 to 3 and pixels 0 to 7. -/
def c7bounds : ℕ → List SwathBoundRec := fun i => if i = 1 then [⟨0, 0, 3, 7⟩] else []

/-- Counterexample to C7 as stated: a calibration vector list whose single
record keeps zero usable samples (all sigmaNought values negative) makes
calibrationVectorMap raise the scipy constructor error instead of returning
a NaN filled raster — the condition is fatal when it starves a subswath of
the two rows the bivariate spline needs. -/
theorem c7_counterexample :
    calibrationVectorMap c7interp1 c7interp2 1 c7bounds [⟨0, [0, 1], [-1, -1]⟩]
      = .error .scipyError := by
  rfl

/-- A record at line 0 with four valid samples. -/
def c7rec0 : VectorRecord := ⟨0, [0, 1, 2, 3], [1, 1, 1, 1]⟩

/-- A record at line 1 with four valid samples. -/
def c7rec1 : VectorRecord := ⟨1, [0, 1, 2, 3], [1, 1, 1, 1]⟩

/-- A record at line 2 with zero usable samples (all values negative). -/
def c7badRec : VectorRecord := ⟨2, [0, 1, 2, 3], [-1, -1, -1, -1]⟩

/-- Witness for C7 at a concrete instance: removing the sample free record
leaves the reconstruction unchanged, the surrounding run succeeds, and the
raster is NaN outside the subswath rectangles. -/
theorem c7_witness :
    vectorMapCore c7interp1 c7interp2 false 1 c7bounds ([c7rec0] ++ c7badRec :: [c7rec1])
      = vectorMapCore c7interp1 c7interp2 false 1 c7bounds ([c7rec0] ++ [c7rec1]) ∧
    ((vectorMapCore c7interp1 c7interp2 false 1 c7bounds ([c7rec0] ++ [c7rec1])).toOption.map
      (fun R => R 5 0)) = some Val.nan := by
  have h := c7_reconstruction_skip c7interp1 c7interp2 false 1 c7bounds [c7rec0] [c7rec1]
    c7badRec (by
      intro iSW h1 h2
      have h3 : iSW = 1 := by omega
      subst h3
      rfl)
  refine ⟨h.1, ?_⟩
  have hok : (vectorMapCore c7interp1 c7interp2 false 1 c7bounds
      ([c7rec0] ++ [c7rec1])).isOk = true := by rfl
  cases hV : vectorMapCore c7interp1 c7interp2 false 1 c7bounds ([c7rec0] ++ [c7rec1]) with
  | error e => rw [hV] at hok; cases hok
  | ok R =>
      have hnan := h.2 R hV 5 0 (by decide)
      simp [Except.toOption, hnan]


/-- Behaviour of one subswath pass when every version lookup fails: the
scaling table gains the value 1 at the subswath id, the balancing table the
value 0, the curve table the identity curve of ones; the SNNR key is set to
the linspace axis while the SNR entry is left untouched. -/
theorem coeffStep_fallback (om : ObsMode) (file : DenoParamsFile) (key : ℚ)
    (acc : Coeffs) (iSW : ℕ)
    (hns : ∀ f, file.noiseScaling = some f → ∀ sid, f sid key = none)
    (hpb : ∀ f, file.powerBalancing = some f → ∀ sid, f sid key = none)
    (hes : ∀ p, file.extraScaling = some p → ∀ sid, p.1 sid = none ∨ p.2 = none) :
    (coeffStep om file key acc iSW).noiseScaling
        = strUpdate acc.noiseScaling (subswathID om iSW) 1 ∧
    (coeffStep om file key acc iSW).powerBalancing
        = strUpdate acc.powerBalancing (subswathID om iSW) 0 ∧
    (coeffStep om file key acc iSW).extraScaling.SNR = acc.extraScaling.SNR ∧
    (coeffStep om file key acc iSW).extraScaling.SNNR = some linspace601 ∧
    (coeffStep om file key acc iSW).extraScaling.curve
        = strUpdate acc.extraScaling.curve (subswathID om iSW) ones601 := by
  cases hfe : file.extraScaling with
  | none =>
      refine ⟨?_, ?_, ?_, ?_, ?_⟩ <;>
        (unfold coeffStep; dsimp only) <;>
        (cases hfs : file.noiseScaling <;> cases hfp : file.powerBalancing <;>
          simp_all)
  | some p =>
      rcases p with ⟨curves, snnr⟩
      rcases hes ⟨curves, snnr⟩ hfe (subswathID om iSW) with h | h
      · refine ⟨?_, ?_, ?_, ?_, ?_⟩ <;>
          (unfold coeffStep; dsimp only) <;>
          (cases hfs : file.noiseScaling <;> cases hfp : file.powerBalancing <;>
            simp_all)
      · refine ⟨?_, ?_, ?_, ?_, ?_⟩ <;>
          (unfold coeffStep; dsimp only) <;>
          (cases hc : curves (subswathID om iSW) <;>
            cases hfs : file.noiseScaling <;> cases hfp : file.powerBalancing <;>
            simp_all)

/-- Invariants of the subswath loop when every version lookup fails: the SNR
entry never changes, entries already holding the fallback values keep them,
and after at least one pass the SNNR key holds the linspace axis. -/
theorem coeffStep_fold_inv (om : ObsMode) (file : DenoParamsFile) (key : ℚ)
    (hns : ∀ f, file.noiseScaling = some f → ∀ sid, f sid key = none)
    (hpb : ∀ f, file.powerBalancing = some f → ∀ sid, f sid key = none)
    (hes : ∀ p, file.extraScaling = some p → ∀ sid, p.1 sid = none ∨ p.2 = none) :
    ∀ (l : List ℕ) (acc : Coeffs),
      ((l.foldl (coeffStep om file key) acc).extraScaling.SNR = acc.extraScaling.SNR)
      ∧ (∀ sid, acc.noiseScaling sid = 1 →
          (l.foldl (coeffStep om file key) acc).noiseScaling sid = 1)
      ∧ (∀ sid, acc.powerBalancing sid = 0 →
          (l.foldl (coeffStep om file key) acc).powerBalancing sid = 0)
      ∧ (∀ sid, acc.extraScaling.curve sid = ones601 →
          (l.foldl (coeffStep om file key) acc).extraScaling.curve sid = ones601)
      ∧ (l ≠ [] → (l.foldl (coeffStep om file key) acc).extraScaling.SNNR = some linspace601) := by
  intro l
  induction l with
  | nil => intro acc; simp
  | cons a l ih =>
      intro acc
      have hstep := coeffStep_fallback om file key acc a hns hpb hes
      have ihs := ih (coeffStep om file key acc a)
      simp only [List.foldl_cons]
      refine ⟨?_, ?_, ?_, ?_, ?_⟩
      · rw [ihs.1, hstep.2.2.1]
      · intro sid h
        exact ihs.2.1 sid (by rw [hstep.1, strUpdate]; split <;> simp [h])
      · intro sid h
        exact ihs.2.2.1 sid (by rw [hstep.2.1, strUpdate]; split <;> simp [h])
      · intro sid h
        exact ihs.2.2.2.1 sid (by rw [hstep.2.2.2.2, strUpdate]; split <;> simp [h])
      · intro _
        cases hl : l with
        | nil => simp only [hl, List.foldl_nil]; exact hstep.2.2.2.1
        | cons b r => exact (hl ▸ ihs).2.2.2.2 (by simp)

/-- After the subswath loop with every version lookup failing, each subswath
of the processed list holds the identity fallbacks. -/
theorem coeffStep_fold_mem (om : ObsMode) (file : DenoParamsFile) (key : ℚ)
    (hns : ∀ f, file.noiseScaling = some f → ∀ sid, f sid key = none)
    (hpb : ∀ f, file.powerBalancing = some f → ∀ sid, f sid key = none)
    (hes : ∀ p, file.extraScaling = some p → ∀ sid, p.1 sid = none ∨ p.2 = none) :
    ∀ (l : List ℕ) (acc : Coeffs), ∀ iSW ∈ l,
      (l.foldl (coeffStep om file key) acc).noiseScaling (subswathID om iSW) = 1
      ∧ (l.foldl (coeffStep om file key) acc).powerBalancing (subswathID om iSW) = 0
      ∧ (l.foldl (coeffStep om file key) acc).extraScaling.curve (subswathID om iSW) = ones601 := by
  intro l
  induction l with
  | nil => intro acc iSW h; cases h
  | cons a l ih =>
      intro acc iSW h
      have hstep := coeffStep_fallback om file key acc a hns hpb hes
      have hinv := coeffStep_fold_inv om file key hns hpb hes l (coeffStep om file key acc a)
      simp only [List.foldl_cons]
      rcases List.mem_cons.1 h with rfl | hmem
      · refine ⟨?_, ?_, ?_⟩
        · exact hinv.2.1 _ (by rw [hstep.1]; simp [strUpdate])
        · exact hinv.2.2.1 _ (by rw [hstep.2.1]; simp [strUpdate])
        · exact hinv.2.2.2.1 _ (by rw [hstep.2.2.2.2]; simp [strUpdate])
      · exact ih (coeffStep om file key acc a) iSW hmem

/-- The cubic spline constructor always rejects an empty abscissa array. -/
theorem splineInputOK_nil (ys : List ℚ) : splineInputOK [] ys = false := by
  simp [splineInputOK]

/-- C8: when the parameter file holds no entry for the resolved processor
version, import_denoisingCoefficients substitutes the identity defaults the
claim describes (scaling 1, balancing 0, curve of ones) - but the fallback
branch stores the interpolation axis under the dictionary key SNNR while the
adaptive noise scaler reads the key SNR, whose entry keeps its initial empty
list.  The empty axis makes the spline constructor inside
adaptiveNoiseScaling raise, so the condition IS fatal for the cross
polarization denoising path with local power compensation, refuting the
final part of the claim (a genuine defect: key mismatch between writer and
reader of extraScalingParameters). -/
theorem c8_fallback_identity_fatal {n : ℕ} (K : Kernels n) (d : ProductData n)
    (pol : String)
    (hns : ∀ f, (d.denoParams pol).noiseScaling = some f →
      ∀ sid, f sid (roundTo1 (effectiveIPF d)) = none)
    (hpb : ∀ f, (d.denoParams pol).powerBalancing = some f →
      ∀ sid, f sid (roundTo1 (effectiveIPF d)) = none)
    (hes : ∀ p, (d.denoParams pol).extraScaling = some p →
      ∀ sid, p.1 sid = none ∨ p.2 = none)
    (hpol : pol = "HV" ∨ pol = "VH") :
    (∀ iSW ∈ swathIdList d.obsMode,
      (import_denoisingCoefficients d pol).noiseScaling (subswathID d.obsMode iSW) = 1
      ∧ (import_denoisingCoefficients d pol).powerBalancing (subswathID d.obsMode iSW) = 0
      ∧ (import_denoisingCoefficients d pol).extraScaling.curve (subswathID d.obsMode iSW)
          = ones601) ∧
    (import_denoisingCoefficients d pol).extraScaling.SNR = [] ∧
    (import_denoisingCoefficients d pol).extraScaling.SNNR = some linspace601 ∧
    thermalNoiseRemoval K d pol "NERSC" true (PyObj.pyBool true) = .error .scipyError := by
  have hinv := coeffStep_fold_inv d.obsMode (d.denoParams pol) (roundTo1 (effectiveIPF d))
    hns hpb hes (swathIdList d.obsMode)
    { noiseScaling := fun _ => 0
      powerBalancing := fun _ => 0
      extraScaling := { SNR := [], SNNR := none, curve := fun _ => [] }
      noiseVariance := fun _ => 0 }
  have hmem := coeffStep_fold_mem d.obsMode (d.denoParams pol) (roundTo1 (effectiveIPF d))
    hns hpb hes (swathIdList d.obsMode)
    { noiseScaling := fun _ => 0
      powerBalancing := fun _ => 0
      extraScaling := { SNR := [], SNNR := none, curve := fun _ => [] }
      noiseVariance := fun _ => 0 }
  have hne : swathIdList d.obsMode ≠ [] := by
    cases hom : d.obsMode <;> decide
  have hSNR : (import_denoisingCoefficients d pol).extraScaling.SNR = [] := hinv.1
  refine ⟨hmem, hSNR, hinv.2.2.2.2 hne, ?_⟩
  have hadapt : ∀ (s0 ne : Fin n → Val) (swi : Fin n → ℕ) (w : ℕ),
      adaptiveNoiseScaling K d.obsMode s0 ne swi
        (import_denoisingCoefficients d pol).extraScaling w = .error .scipyError := by
    intro s0 ne swi w
    unfold adaptiveNoiseScaling
    rw [if_neg]
    intro hall
    have h1 : 1 ∈ swathIdList d.obsMode := by
      cases hom : d.obsMode <;> decide
    have := List.all_eq_true.1 hall 1 h1
    rw [hSNR, splineInputOK_nil] at this
    cases this
  have hmod : modifiedNoiseEquivalentSigma0Map K d pol true = .error .scipyError := by
    unfold modifiedNoiseEquivalentSigma0Map
    rw [if_pos ⟨rfl, hpol⟩]
    exact hadapt _ _ _ _
  unfold thermalNoiseRemoval
  rw [if_neg (by simp), if_neg (by simp [PyObj.isBool])]
  rw [if_neg (by decide : ¬ ("NERSC" : String) = "ESA")]
  rw [hmod]

/-- Witness for C8 at a concrete product whose parameter file has no
entries. -/
theorem c8_witness :
    (import_denoisingCoefficients sampleProduct "HV").extraScaling.SNR = [] ∧
    (import_denoisingCoefficients sampleProduct "HV").noiseScaling "IW1" = 1 ∧
    (import_denoisingCoefficients sampleProduct "HV").powerBalancing "IW1" = 0 ∧
    (import_denoisingCoefficients sampleProduct "HV").extraScaling.curve "IW1" = ones601 ∧
    thermalNoiseRemoval kernels0 sampleProduct "HV" "NERSC" true (PyObj.pyBool true)
      = .error .scipyError := by
  have h := c8_fallback_identity_fatal kernels0 sampleProduct "HV"
    (by intro f hf; simp [sampleProduct, fileNone] at hf)
    (by intro f hf; simp [sampleProduct, fileNone] at hf)
    (by intro p hp; simp [sampleProduct, fileNone] at hp)
    (Or.inl rfl)
  have h1 : 1 ∈ swathIdList sampleProduct.obsMode := by decide
  have hm := h.1 1 h1
  have hsid : subswathID sampleProduct.obsMode 1 = "IW1" := by decide
  rw [hsid] at hm
  exact ⟨h.2.1, hm.1, hm.2.1, hm.2.2, h.2.2.2⟩

/-- Cumulative summation preserves length. -/
theorem cumsumFrom_length (l : List ℚ) : ∀ c, (cumsumFrom c l).length = l.length := by
  induction l with
  | nil => intro c; rfl
  | cons q r ih => intro c; simp [cumsumFrom, ih]

/-- Entry k of a cumulative sum is the carry plus the sum of the first k + 1
addends. -/
theorem cumsumFrom_getD (l : List ℚ) : ∀ (c : ℚ) (k : ℕ), k < l.length →
    (cumsumFrom c l).getD k 0 = c + (l.take (k + 1)).sum := by
  induction l with
  | nil => intro c k hk; simp at hk
  | cons q r ih =>
      intro c k hk
      cases k with
      | zero => simp [cumsumFrom]
      | succ k =>
          simp only [cumsumFrom, List.getD_cons_succ, List.take_succ_cons, List.sum_cons]
          rw [ih (c + q) k (by simpa using hk)]
          ring

/-- C9 (amended): the balancing coefficients recorded for a block are the
cumulative sums of the per boundary power discontinuities (adjacent fitted
lines evaluated at the shared boundary pixel) with the global bias ADDED to
every entry (balancingPower += powerBias in the source): entry k is the sum
of the first k discontinuities plus the bias, so the recorded offset of
subswath index 1 equals the bias itself, which is generally nonzero - the
claim that the bias is removed and the first offset is zero is refuted by
the counterexample. -/
theorem c9_power_balancing {m : ℕ} (fits : List (ℚ × ℚ)) (bnds : List ℚ)
    (blockSWI : Fin m → ℕ) (blockRN0 blockN0 : Fin m → Val) (b : ℚ)
    (hb : powerBalancingBias fits bnds blockSWI blockRN0 blockN0 = Val.num b) :
    (experiment_powerBalancing_block fits bnds blockSWI blockRN0 blockN0).length = 5 ∧
    (∀ k, k < 5 →
      (experiment_powerBalancing_block fits bnds blockSWI blockRN0 blockN0).getD k Val.nan
        = Val.num ((((List.range 4).map (fun li =>
            evalLine (fits.getD (li + 1) (0, 0)) (bnds.getD li 0)
              - evalLine (fits.getD li (0, 0)) (bnds.getD li 0))).take k).sum + b)) ∧
    (experiment_powerBalancing_block fits bnds blockSWI blockRN0 blockN0).getD 0 Val.nan
      = Val.num b := by
  have hdl : (balancingDeltas fits bnds).length = 5 := by
    simp [balancingDeltas]
  have hcl : (balancingCumsum fits bnds).length = 5 := by
    rw [balancingCumsum, cumsumFrom_length, hdl]
  have hlen : (experiment_powerBalancing_block fits bnds blockSWI blockRN0 blockN0).length = 5 := by
    rw [experiment_powerBalancing_block, List.length_map, hcl]
  have hget : ∀ k, k < 5 →
      (experiment_powerBalancing_block fits bnds blockSWI blockRN0 blockN0).getD k Val.nan
        = Val.num ((((List.range 4).map (fun li =>
            evalLine (fits.getD (li + 1) (0, 0)) (bnds.getD li 0)
              - evalLine (fits.getD li (0, 0)) (bnds.getD li 0))).take k).sum + b) := by
    intro k hk
    simp only [experiment_powerBalancing_block]
    rw [getD_map_lt _ _ _ (by rw [hcl]; omega) Val.nan 0]
    rw [hb, Val.num_add_num]
    simp only [balancingCumsum]
    rw [cumsumFrom_getD _ _ _ (by rw [hdl]; omega)]
    simp only [balancingDeltas, List.take_succ_cons, List.sum_cons]
    norm_num
  refine ⟨hlen, hget, ?_⟩
  have h0 := hget 0 (by omega)
  simpa using h0

/-- Five fitted lines with intercepts 0 to 4, giving unit discontinuities at
the four boundaries. -/
def c9fits : List (ℚ × ℚ) := [(0, 0), (0, 1), (0, 2), (0, 3), (0, 4)]

/-- Boundary pixels for the witness, all at pixel 0. -/
def c9bnds : List ℚ := [0, 0, 0, 0]

/-- A one pixel block lying in subswath 2. -/
def c9swi : Fin 1 → ℕ := fun _ => 2

/-- Raw noise of the witness block. -/
def c9rn0 : Fin 1 → Val := fun _ => Val.num 0

/-- Scaled noise of the witness block. -/
def c9n0 : Fin 1 → Val := fun _ => Val.num 0

/-- Counterexample to C9 as stated: with no discontinuities and a unit
residual on the subswath 2 pixel, the recorded balancing offset of subswath
index 1 is the bias 1, not zero. -/
theorem c9_counterexample :
    (experiment_powerBalancing_block [] [] (fun _ : Fin 1 => 2) (fun _ : Fin 1 => Val.num 1)
        (fun _ : Fin 1 => Val.num 0)).getD 0 Val.nan = Val.num 1 := by
  norm_num [experiment_powerBalancing_block, balancingCumsum, balancingDeltas, cumsumFrom,
    evalLine, powerBalancingBias, balancedBlockN0, nanmeanL, vsum, List.finRange,
    List.range, List.range.loop, Val.add, Val.sub, Val.neg, Val.isNaN,
    Val.num_add_num, Val.num_sub_num, Val.num_div_num, Val.isNaN_num]

/-- Witness for C9 at a block with unit boundary discontinuities: the bias
evaluates to -1 and the recorded coefficients follow the cumulative sum plus
bias formula. -/
theorem c9_witness :
    (experiment_powerBalancing_block c9fits c9bnds c9swi c9rn0 c9n0).length = 5 ∧
    (experiment_powerBalancing_block c9fits c9bnds c9swi c9rn0 c9n0).getD 2 Val.nan
      = Val.num 1 ∧
    (experiment_powerBalancing_block c9fits c9bnds c9swi c9rn0 c9n0).getD 0 Val.nan
      = Val.num (-1) := by
  have hb : powerBalancingBias c9fits c9bnds c9swi c9rn0 c9n0 = Val.num (-1) := by
    norm_num [powerBalancingBias, balancedBlockN0, balancingCumsum, balancingDeltas,
      cumsumFrom, evalLine, nanmeanL, vsum, List.finRange, List.range, List.range.loop,
      c9fits, c9bnds, c9swi, c9rn0, c9n0, Val.add, Val.sub, Val.neg, Val.isNaN,
      Val.num_add_num, Val.num_sub_num, Val.num_div_num, Val.isNaN_num]
  have h := c9_power_balancing c9fits c9bnds c9swi c9rn0 c9n0 (-1) hb
  refine ⟨h.1, ?_, h.2.2⟩
  rw [h.2.1 2 (by omega)]
  norm_num [evalLine, c9fits, c9bnds, List.range, List.range.loop]
